import Mathlib

/-!
# Verification of the proxyWebServer LRU cache and request engine

A shallow embedding of the repository's LRU response cache
(`src/proxy_cache.c` backed by `src/hashmap.c`, and the C++ variant
`src/proxy_cache.cpp`) together with the relevant slices of the
per-connection handler (`src/proxy_handler.c`, `src/proxy_handler.cpp`).

Modelling conventions:
* Payload bytes are `List Nat` (only byte-for-byte equality and lengths
  matter to the properties below).
* The doubly-linked recency list of `proxy_cache.c` is a `List CacheElement`
  with the head of the Lean list as the MRU end and the last element as the
  LRU tail; `detach_node_unlocked` on a node becomes `List.erase` of that
  element, and detaching the tail becomes `List.dropLast`.
* The hash map of `hashmap.c` is modelled extensionally as a function
  `String → Option CacheElement` plus the node counter `map->count`
  (`mapCount`).  `map_find`/`map_insert`/`map_erase` act pointwise exactly
  as the bucket-chain code does for string keys (`strcmp` equality is
  `String` equality).
* `MAX_CACHE_SIZE` (the capacity, 10485760 in `proxy_cache.h`) is a
  parameter `cap` of every operation so that properties can be exercised on
  small concrete instances; nothing in the cache code depends on its value.
* The C code mutates `cache_element` structs in place; the map and the list
  reference the same struct.  In the functional model an update writes the
  new element value into both structures, mirroring what the shared pointer
  makes visible.
* `size_t` arithmetic: `current_size` only ever subtracts lengths of
  elements it previously added, so on the states reachable here the `Nat`
  truncated subtraction agrees with `size_t` subtraction.
-/

/-- A cache entry: `cache_element` of `proxy_cache.h` (the `url` key and the
`data` payload; `len` is always the length of the `malloc`ed copy of the
payload, so it is represented by `data.length`). -/
structure CacheElement where
  url : String
  data : List Nat
deriving DecidableEq, Repr

/-- The cache state `proxy_cache_t` of `proxy_cache.c`: the recency list
(head = MRU, last = LRU tail), the hash map contents, the hash map's node
count `map->count`, and `current_size`. -/
structure CacheState where
  list : List CacheElement
  mapf : String → Option CacheElement
  mapCount : Nat
  current_size : Nat

/-- `cache_init` (proxy_cache.c:189): empty list, empty map, zero size. -/
def emptyState : CacheState :=
  { list := [], mapf := fun _ => none, mapCount := 0, current_size := 0 }

/-- `map_find` (hashmap.c:168): look the key up in the bucket chains. -/
def map_find (s : CacheState) (url : String) : Option CacheElement :=
  s.mapf url

/-- `map_erase` (hashmap.c:182): remove the node with this key if present
(decrementing `map->count` only when a node was actually found). -/
def mapErase (url : String) (s : CacheState) : CacheState :=
  if (s.mapf url).isSome then
    { s with mapf := fun k => if k = url then none else s.mapf k,
             mapCount := s.mapCount - 1 }
  else s

/-- `map_insert` (hashmap.c:134): replace the value if the key exists,
otherwise create a new node (`create_node`) and increment `map->count`.
`nodeOk` is the success of the node's `malloc` (hashmap.c:159-160); on
failure the insert silently does nothing. -/
def mapInsert (nodeOk : Bool) (url : String) (e : CacheElement)
    (s : CacheState) : CacheState :=
  if (s.mapf url).isSome then
    { s with mapf := fun k => if k = url then some e else s.mapf k }
  else if nodeOk then
    { s with mapf := fun k => if k = url then some e else s.mapf k,
             mapCount := s.mapCount + 1 }
  else s

/-- `remove_lru_element_unlocked` (proxy_cache.c:143): if the list is
nonempty, detach the tail, subtract its length from `current_size`, and
erase its URL from the map (which frees the element). -/
def remove_lru (s : CacheState) : CacheState :=
  match s.list.getLast? with
  | none => s
  | some lru =>
      mapErase lru.url
        { s with list := s.list.dropLast,
                 current_size := s.current_size - lru.data.length }

/-- The eviction loop body of `cache_add` (proxy_cache.c:325 and 359):
`while (current_size + length > MAX_CACHE_SIZE) remove_lru_element_unlocked();`
run with explicit fuel.  `remove_lru` is the identity on an empty list, so
the source loop can only exit when its condition is false; with the
condition true on an empty list it would spin forever.  Fuel equal to the
list length is enough to reach the loop's exit point on every state the
program reaches (proved below), and on the divergent configuration the
fuel-exhausted result stands in for the missing value. -/
def evictN (cap need : Nat) : Nat → CacheState → CacheState
  | 0, s => s
  | n + 1, s =>
      if cap < s.current_size + need then evictN cap need n (remove_lru s)
      else s

/-- The eviction loop of `cache_add`, with fuel fixed to the list length. -/
def evictWhile (cap need : Nat) (s : CacheState) : CacheState :=
  evictN cap need s.list.length s

/-- `cache_find` (proxy_cache.c:258): look the URL up in the map; on a hit
detach the element from its list position and re-attach it at the head
(MRU), returning the element pointer.  Returns the element together with
the updated state. -/
def cache_find (url : String) (s : CacheState) :
    Option CacheElement × CacheState :=
  match s.mapf url with
  | none => (none, s)
  | some e => (some e, { s with list := e :: s.list.erase e })

/-- Success flags for the four allocation sites of `cache_add`
(proxy_cache.c): `elemOk` is the `calloc` of the element struct (line 365),
`urlOk` the `strdup` of the key (line 378), `dataOk` the `malloc` of the
payload buffer (lines 332 and 380), and `nodeOk` the `malloc` of the
hash-map node inside `map_insert` (hashmap.c:159). -/
structure AllocPlan where
  elemOk : Bool
  urlOk : Bool
  dataOk : Bool
  nodeOk : Bool

/-- Every allocation succeeds (the nominal execution of `cache_add`). -/
def allocOk : AllocPlan := ⟨true, true, true, true⟩

/-- `cache_add` (proxy_cache.c:298), with the outcome of each internal
allocation given by `plan`.

Guard (line 302): null/empty data or `length > MAX_CACHE_SIZE` returns at
once.  (The `url == NULL` test has no counterpart for Lean strings; an
*empty* URL is NOT rejected by the C code.)

Update path (line 318): detach the existing element and subtract its old
length; evict LRU entries until the new length fits; reallocate the payload
buffer — on failure `map_erase` the (already detached) element and return —
otherwise overwrite the element in place (visible through the map binding,
which still references it if present) and re-attach it at the head.

Insert path (line 356): evict until the new length fits; allocate the
element, key copy and payload (failures return with the evictions already
performed); attach the new element at the head, `map_insert` it, and add
its length to `current_size`. -/
def cache_addAlloc (cap : Nat) (plan : AllocPlan) (url : String)
    (data : List Nat) (s : CacheState) : CacheState :=
  if data = [] ∨ cap < data.length then s
  else
    match s.mapf url with
    | some existing =>
        let s1 : CacheState :=
          { s with list := s.list.erase existing,
                   current_size := s.current_size - existing.data.length }
        let s2 := evictWhile cap data.length s1
        if plan.dataOk then
          let newE : CacheElement := { url := existing.url, data := data }
          { s2 with
              mapf := fun k =>
                if k = url then (s2.mapf url).map fun _ => newE
                else s2.mapf k,
              current_size := s2.current_size + data.length,
              list := newE :: s2.list }
        else
          mapErase existing.url s2
    | none =>
        let s1 := evictWhile cap data.length s
        if plan.elemOk = false then s1
        else if plan.urlOk = false ∨ plan.dataOk = false then s1
        else
          let newE : CacheElement := { url := url, data := data }
          let s2 : CacheState := { s1 with list := newE :: s1.list }
          let s3 := mapInsert plan.nodeOk url newE s2
          { s3 with current_size := s3.current_size + data.length }

/-- `cache_add` on the nominal path where every allocation succeeds. -/
def cache_add (cap : Nat) (url : String) (data : List Nat)
    (s : CacheState) : CacheState :=
  cache_addAlloc cap allocOk url data s

/-- Sum of the payload lengths of the elements of a list. -/
def sumLens (l : List CacheElement) : Nat :=
  (l.map fun e => e.data.length).sum

/-- The cache invariant of the specification, for `proxy_cache.c`:
byte accounting is exact and bounded, the map and the recency list hold
exactly the same entries (so list length equals map size), URLs are unique,
and every live payload is nonempty. -/
structure CacheInv (cap : Nat) (s : CacheState) : Prop where
  size_eq : s.current_size = sumLens s.list
  size_le : s.current_size ≤ cap
  find_mem : ∀ u e, s.mapf u = some e → e ∈ s.list ∧ e.url = u
  mem_find : ∀ e ∈ s.list, s.mapf e.url = some e
  nodup : (s.list.map CacheElement.url).Nodup
  count_eq : s.mapCount = s.list.length
  data_ne : ∀ e ∈ s.list, e.data ≠ []

/-- A public cache operation. -/
inductive Op where
  | put (url : String) (data : List Nat)
  | get (url : String)

/-- Apply one public operation (`cache_add` / `cache_find`). -/
def applyOp (cap : Nat) (s : CacheState) : Op → CacheState
  | Op.put url data => cache_add cap url data s
  | Op.get url => (cache_find url s).2

/-- Run a sequence of public operations from the empty cache. -/
def runOps (cap : Nat) (ops : List Op) : CacheState :=
  ops.foldl (applyOp cap) emptyState


/-! ## The C++ variant (`src/proxy_cache.cpp`)

Same structure, but: `cache_add` additionally rejects an *empty* URL
(line 49), the eviction loop tests `tail` before the size condition
(line 34), `cache_find` rejects an empty URL (line 115), only relinks when
the node is not already the head (line 129), and returns a *copy* of the
payload vector by value (line 147), never a pointer into the cache.
`MAX_CACHE_BYTES` is again a parameter `cap`. -/

namespace Cpp

/-- The C++ `Cache` state: recency list (head = MRU), `cache_map`, and
`current_size`.  `std::unordered_map` is modelled as a function; its size
is not read by the C++ code, so no counter is kept. -/
structure CppState where
  list : List CacheElement
  mapf : String → Option CacheElement
  current_size : Nat

/-- `Cache::remove_lru_node_unlocked` (proxy_cache.cpp:32):
`while (tail && current_size + required_space > MAX_CACHE_BYTES)` detach the
tail, subtract its size, erase its URL from the map.  Structurally
recursive on the fuel, fixed to the list length by `evict` below. -/
def evictN (cap req : Nat) : Nat → CppState → CppState
  | 0, s => s
  | n + 1, s =>
      match s.list.getLast? with
      | none => s
      | some lru =>
          if cap < s.current_size + req then
            evictN cap req n
              { list := s.list.dropLast,
                mapf := fun k => if k = lru.url then none else s.mapf k,
                current_size := s.current_size - lru.data.length }
          else s

/-- `Cache::remove_lru_node_unlocked`, fuel fixed to the list length (the
C++ loop checks `tail` first, so it always terminates; each iteration
shortens the list). -/
def evict (cap req : Nat) (s : CppState) : CppState :=
  evictN cap req s.list.length s

/-- `Cache::cache_add` (proxy_cache.cpp:46).  Guard (line 49): empty URL,
empty data, or `data.size() > MAX_CACHE_BYTES` returns at once.  Update
path (line 63): detach the existing node, subtract its size, evict, point
the node at the new payload and relink it at the head, add the new size.
Insert path (line 89): evict, link the new node at the head, store it in
the map, add its size. -/
def cache_add (cap : Nat) (url : String) (data : List Nat)
    (s : CppState) : CppState :=
  if url = "" ∨ data = [] ∨ cap < data.length then s
  else
    match s.mapf url with
    | some existing =>
        let s1 : CppState :=
          { s with list := s.list.erase existing,
                   current_size := s.current_size - existing.data.length }
        let s2 := evict cap data.length s1
        let newE : CacheElement := { url := existing.url, data := data }
        { list := newE :: s2.list,
          mapf := fun k =>
            if k = url then (s2.mapf url).map fun _ => newE
            else s2.mapf k,
          current_size := s2.current_size + data.length }
    | none =>
        let s1 := evict cap data.length s
        let newE : CacheElement := { url := url, data := data }
        { list := newE :: s1.list,
          mapf := fun k => if k = url then some newE else s1.mapf k,
          current_size := s1.current_size + data.length }

/-- `Cache::cache_find` (proxy_cache.cpp:113): empty URL or map miss
returns the empty vector; on a hit, relink the node at the head unless it
already is the head, and return the payload *by value* (`*data_read_ptr`,
line 147) — a copy holding no reference into the cache. -/
def cache_find (url : String) (s : CppState) : List Nat × CppState :=
  if url = "" then ([], s)
  else
    match s.mapf url with
    | none => ([], s)
    | some node =>
        let s' :=
          if s.list.head? = some node then s
          else { s with list := node :: s.list.erase node }
        (node.data, s')


end Cpp

/-! ## Pointer-level view of the C cache (`src/proxy_cache.c`)

`cache_find` in the C implementation returns a `cache_element *` whose
`data` field is the address of the cache's own payload buffer — no copy is
made.  To capture what that pointer refers to, this variant of the model
tracks the `malloc`ed payload buffers in an explicit store: an entry holds
the *address* of its buffer, `cache_add` `free`s and reallocates buffers,
and eviction `free`s the buffer of the element it destroys
(`free_cache_element`, proxy_cache.c:169). -/

namespace CPtr

/-- `cache_element` with its `data` pointer made explicit: `dataAddr` is
the address of the payload buffer and `len` its length. -/
structure HEntry where
  url : String
  dataAddr : Nat
  len : Nat
deriving DecidableEq, Repr

/-- Cache state plus the store of live `malloc`ed payload buffers
(address ↦ bytes) and the next fresh address. -/
structure HState where
  heap : List (Nat × List Nat)
  nextA : Nat
  list : List HEntry
  mapf : String → Option HEntry
  current : Nat

/-- `cache_init`: empty cache, empty buffer store. -/
def hEmpty : HState :=
  { heap := [], nextA := 0, list := [], mapf := fun _ => none, current := 0 }

/-- Read the live buffer at an address, if it has not been freed. -/
def hLookup (h : List (Nat × List Nat)) (a : Nat) : Option (List Nat) :=
  (h.find? fun p => p.1 == a).map fun p => p.2

/-- `free` a payload buffer: the address is no longer live. -/
def hFree (a : Nat) (h : List (Nat × List Nat)) : List (Nat × List Nat) :=
  h.filter fun p => p.1 != a

/-- `remove_lru_element_unlocked` (proxy_cache.c:143): detach the tail,
subtract its length, erase it from the map; `map_erase` triggers
`free_cache_element`, which `free`s the payload buffer (line 176). -/
def hRemoveLru (s : HState) : HState :=
  match s.list.getLast? with
  | none => s
  | some lru =>
      { s with list := s.list.dropLast,
               current := s.current - lru.len,
               mapf := fun k => if k = lru.url then none else s.mapf k,
               heap := hFree lru.dataAddr s.heap }

/-- The eviction loop of `cache_add`, fuelled as in `evictN` above. -/
def hEvictN (cap need : Nat) : Nat → HState → HState
  | 0, s => s
  | n + 1, s =>
      if cap < s.current + need then hEvictN cap need n (hRemoveLru s)
      else s

/-- `cache_add` (proxy_cache.c:298) over the explicit buffer store, on the
nominal path (every allocation succeeds).  The update path `free`s the old
payload buffer and `malloc`s a fresh one (lines 331-332); the insert path
`malloc`s a fresh buffer (line 380). -/
def hAdd (cap : Nat) (url : String) (data : List Nat) (s : HState) :
    HState :=
  if data = [] ∨ cap < data.length then s
  else
    match s.mapf url with
    | some existing =>
        let s1 : HState :=
          { s with list := s.list.erase existing,
                   current := s.current - existing.len }
        let s2 := hEvictN cap data.length s1.list.length s1
        let newE : HEntry :=
          { url := existing.url, dataAddr := s2.nextA, len := data.length }
        { heap := (s2.nextA, data) :: hFree existing.dataAddr s2.heap,
          nextA := s2.nextA + 1,
          list := newE :: s2.list,
          mapf := fun k =>
            if k = url then (s2.mapf url).map fun _ => newE
            else s2.mapf k,
          current := s2.current + data.length }
    | none =>
        let s1 := hEvictN cap data.length s.list.length s
        let newE : HEntry :=
          { url := url, dataAddr := s1.nextA, len := data.length }
        { heap := (s1.nextA, data) :: s1.heap,
          nextA := s1.nextA + 1,
          list := newE :: s1.list,
          mapf := fun k => if k = url then some newE else s1.mapf k,
          current := s1.current + data.length }

/-- `cache_find` (proxy_cache.c:258) at the pointer level: on a hit the
element is relinked at the head and the element itself — holding the
*address* of the internal payload buffer, not a copy of the bytes — is
returned to the caller. -/
def hFind (url : String) (s : HState) : Option HEntry × HState :=
  match s.mapf url with
  | none => (none, s)
  | some e => (some e, { s with list := e :: s.list.erase e })

end CPtr

/-! ## Handler slices (`src/proxy_handler.c`, `src/proxy_handler.cpp`) -/

/-- `send_error_response` (proxy_handler.c:60): the HTML body built by the
first `snprintf` (line 67). -/
def c_html_body (code : Nat) (msg : String) : String :=
  "<HTML><HEAD><TITLE>" ++ toString code ++ " " ++ msg ++
    "</TITLE></HEAD><BODY><H1>" ++ toString code ++ " " ++ msg ++
    "</H1></BODY></HTML>"

/-- `send_error_response` (proxy_handler.c:60): the full response written
to the client socket (line 72; the buffers are large enough that no
`snprintf` truncation occurs for the status lines used by the program). -/
def c_send_error_response (code : Nat) (msg : String) : String :=
  "HTTP/1.1 " ++ toString code ++ " " ++ msg ++ "\r\n" ++
    "Connection: close\r\n" ++
    "Content-Type: text/html\r\n" ++
    "Content-Length: " ++ toString (c_html_body code msg).length ++
    "\r\n\r\n" ++ c_html_body code msg

/-- `ProxyHandler::sendHttpError` (proxy_handler.cpp:25): body and full
response (note the different header order from the C variant). -/
def cpp_html_body (code : Nat) (msg : String) : String :=
  "<html><body><h1>" ++ toString code ++ " " ++ msg ++
    "</h1></body></html>"

/-- `ProxyHandler::sendHttpError` (proxy_handler.cpp:28). -/
def cpp_sendHttpError (code : Nat) (msg : String) : String :=
  "HTTP/1.1 " ++ toString code ++ " " ++ msg ++ "\r\n" ++
    "Content-Type: text/html\r\n" ++
    "Content-Length: " ++ toString (cpp_html_body code msg).length ++
    "\r\n" ++ "Connection: close\r\n\r\n" ++ cpp_html_body code msg

/-- The response bytes the C handler writes to the client on the CONNECT
path, as a function of whether `connect_to_remote` succeeded
(proxy_handler.c:336-350): on failure it calls
`send_error_response(client_socket, 502, "Bad Gateway")` (line 341); on
success it sends `"HTTP/1.1 200 OK\r\n\r\n"` (line 349) before relaying. -/
def cConnectSends (originOk : Bool) : List String :=
  if originOk then ["HTTP/1.1 200 OK\r\n\r\n"]
  else [c_send_error_response 502 "Bad Gateway"]

/-- The response bytes the C++ handler writes to the client on the CONNECT
path (proxy_handler.cpp:229-246): on failure it returns without sending
anything (lines 233-237); on success it sends `"HTTP/1.1 200 OK \r\n\r\n"`
(line 239, with the stray space of the source) before relaying. -/
def cppConnectSends (originOk : Bool) : List String :=
  if originOk then ["HTTP/1.1 200 OK \r\n\r\n"]
  else []

/-- The response the C handler sends when the HTTP (non-CONNECT) path fails
to connect to the origin (proxy_handler.c:486-489). -/
def cHttpConnectFailSends : List String :=
  [c_send_error_response 502 "Bad Gateway"]

/-- The response the C++ handler sends when the HTTP GET path fails to
connect to the origin (proxy_handler.cpp:390-394). -/
def cppHttpConnectFailSends : List String :=
  [cpp_sendHttpError 502 "Bad Gateway"]

/-- `MAX_BYTES` (proxy_handler.c:34): the size of the fixed
`new_request[MAX_BYTES]` buffer the C origin-request builder writes
into. -/
def MAX_BYTES : Nat := 4096

/-- Case-insensitive ASCII test that `pre` is an initial segment of
`line`: `_strnicmp(line, pre, strlen(pre)) == 0` (proxy_handler.c:546) and
`is_equals_prefix` (proxy_handler.cpp:430-439).  Header names are ASCII,
for which `Char.toLower` agrees with C `tolower`.  (In the C source the
comparison window may run past the line into the CRLF, but `"Host:"` and
`"Connection:"` contain no CR, so a cross-line match is impossible and the
per-line check is equivalent.) -/
def ciHasPreL (pre line : List Char) : Bool :=
  decide (pre.length ≤ line.length) &&
    (line.take pre.length).map Char.toLower == pre.map Char.toLower

/-- One bounded `snprintf` write into the `new_request` buffer followed by
`current_pos += len_written; remaining_len -= len_written`
(proxy_handler.c:521-551).  With `remaining > 0`, `snprintf` stores at
most `remaining - 1` characters (one byte is reserved for the terminating
NUL) but returns the full untruncated length, so `remaining` always drops
by the would-be length and becomes non-positive exactly when the write was
truncated; with `remaining ≤ 0` nothing is stored.  (A negative size can
reach a raw `snprintf` only if the request line or `Host:` header alone
overflow the buffer, which the parser's 2048-byte `path` and 256-byte
`host` buffers rule out for the `GET` requests this builder serves.) -/
def snprintfStep (acc : List Char × Int) (piece : List Char) :
    List Char × Int :=
  (acc.1 ++ (if 0 < acc.2 then piece.take (acc.2 - 1).toNat else []),
    acc.2 - piece.length)

/-- The header-copy loop of the C builder (proxy_handler.c:536-559): while
another CRLF-terminated line exists and `remaining_len > 0`, stop at the
blank line, skip lines starting (case-insensitively) with `Host:` or
`Connection:`, and `snprintf` every other line plus CRLF into the
buffer. -/
def copyHeaderLinesB : List Char × Int → List (List Char) → List Char × Int
  | acc, [] => acc
  | acc, line :: rest =>
      if 0 < acc.2 then
        if line = [] then acc
        else if ciHasPreL "Host:".toList line ||
            ciHasPreL "Connection:".toList line then
          copyHeaderLinesB acc rest
        else
          copyHeaderLinesB (snprintfStep acc (line ++ "\r\n".toList)) rest
      else acc

/-- The C origin-request builder (proxy_handler.c:514-565): the request
line from the parsed `path`, `Host:`, `Connection: close`, the surviving
client header lines, and — only when more than two bytes of the buffer
remain — the terminating blank line, all written through bounded
`snprintf` into a buffer of `bsz` bytes (`MAX_BYTES` in the source; a
parameter here so the behaviour can be exercised at any size).  `method`
is the parsed method token and `lines` are the CRLF-separated client
header lines after the request line. -/
def cBuildOriginRequest (bsz : Nat) (method path host : List Char)
    (lines : List (List Char)) : List Char :=
  let acc1 := snprintfStep ([], (bsz : Int))
    (method ++ " ".toList ++ path ++ " HTTP/1.1\r\n".toList)
  let acc2 := snprintfStep acc1 ("Host: ".toList ++ host ++ "\r\n".toList)
  let acc3 := snprintfStep acc2 "Connection: close\r\n".toList
  let acc4 := copyHeaderLinesB acc3 lines
  if 2 < acc4.2 then (snprintfStep acc4 "\r\n".toList).1 else acc4.1

/-- The header-copy loop of the C++ builder (proxy_handler.cpp:417-452)
over the growable `modified_request` vector: append CRLF and stop at the
blank line, stop without a terminator when the lines run out, skip
`Host:`/`Connection:` lines, and append every other line plus CRLF. -/
def cppCopyHeaderLines : List (List Char) → List Char
  | [] => []
  | line :: rest =>
      if line = [] then "\r\n".toList
      else if ciHasPreL "Host:".toList line ||
          ciHasPreL "Connection:".toList line then
        cppCopyHeaderLines rest
      else line ++ "\r\n".toList ++ cppCopyHeaderLines rest

/-- The C++ origin-request builder (proxy_handler.cpp:401-452): the `GET`
request line from the parsed `path` (the method is hard-coded), `Host:`,
`Connection: close`, then the copied header lines; the vector imposes no
size bound. -/
def cppBuildOriginRequest (path host : List Char)
    (lines : List (List Char)) : List Char :=
  "GET ".toList ++ path ++ " HTTP/1.1\r\n".toList ++
    "Host: ".toList ++ host ++ "\r\n".toList ++
    "Connection: close\r\n".toList ++ cppCopyHeaderLines lines

/-- Modelled from the spec: the surviving header block — the client's
header lines up to the blank line, minus every case-insensitive
`Host:`/`Connection:` line, each followed by CRLF, in original order. -/
def specTailL (lines : List (List Char)) : List Char :=
  (((lines.takeWhile fun l => l ≠ []).filter fun l =>
      !(ciHasPreL "Host:".toList l ||
        ciHasPreL "Connection:".toList l)).map
    fun l => l ++ "\r\n".toList).foldr (fun a b => a ++ b) []

/-- Modelled from the spec: the complete rebuilt origin request as §4.4
states it — request line `METHOD SP path SP HTTP/1.1 CRLF` from the
parsed path, `Host` and `Connection: close` as the first two headers in
that order, the surviving client header lines in original order, and the
terminating blank line. -/
def specOriginRequestL (method path host : List Char)
    (lines : List (List Char)) : List Char :=
  method ++ " ".toList ++ path ++ " HTTP/1.1\r\n".toList ++
    "Host: ".toList ++ host ++ "\r\n".toList ++
    "Connection: close\r\n".toList ++ specTailL lines ++ "\r\n".toList

/-- One iteration of the response streaming loop
(proxy_handler.c:598-652): the chunk just `recv`ed from the origin is sent
to the client and, if caching is still active, appended to the cache
buffer unless that would exceed `MAX_CACHE_SIZE`, which abandons caching
for good (lines 610-617).  The accumulator is (bytes sent to the client so
far, the cache buffer, or `none` once caching is abandoned or was never
active). -/
def streamStep (cap : Nat) (acc : List Nat × Option (List Nat))
    (chunk : List Nat) : List Nat × Option (List Nat) :=
  (acc.1 ++ chunk,
    match acc.2 with
    | none => none
    | some buf =>
        if cap < buf.length + chunk.length then none
        else some (buf ++ chunk))

/-- The full streaming loop over the successive origin `recv` chunks, on
the path where every send to the client succeeds.  Caching starts active
exactly for `GET` requests (proxy_handler.c:585). -/
def streamLoop (cap : Nat) (isGet : Bool) (chunks : List (List Nat)) :
    List Nat × Option (List Nat) :=
  chunks.foldl (streamStep cap) ([], if isGet then some [] else none)

/-- The final cache write decision (proxy_handler.c:656-661): the buffer is
stored iff caching is still active and at least one byte was accumulated. -/
def cacheStored (r : List Nat × Option (List Nat)) : Option (List Nat) :=
  match r.2 with
  | none => none
  | some buf => if buf = [] then none else some buf

/-- The part of the cache invariant that the eviction loop needs and
preserves, generalized over a set `X` of "exception" keys whose bindings
are allowed to reference an element that is *not* in the recency list (the
update path of `cache_add` runs the eviction loop exactly in such an
intermediate state, with the existing element detached while its map
binding survives). -/
structure EvictOk (X : String → Prop) (s : CacheState) : Prop where
  size_eq : s.current_size = sumLens s.list
  mem_find : ∀ e ∈ s.list, s.mapf e.url = some e
  find_mem : ∀ u e, s.mapf u = some e → X u ∨ (e ∈ s.list ∧ e.url = u)
  xdisj : ∀ u, X u → ∀ e ∈ s.list, e.url ≠ u
  nodup : (s.list.map CacheElement.url).Nodup
  data_ne : ∀ e ∈ s.list, e.data ≠ []

theorem sumLens_nil : sumLens [] = 0 := rfl

theorem sumLens_cons (e : CacheElement) (l : List CacheElement) :
    sumLens (e :: l) = e.data.length + sumLens l := by
  simp [sumLens]

theorem sumLens_append (l₁ l₂ : List CacheElement) :
    sumLens (l₁ ++ l₂) = sumLens l₁ + sumLens l₂ := by
  simp [sumLens]

theorem sumLens_perm {l₁ l₂ : List CacheElement} (h : l₁.Perm l₂) :
    sumLens l₁ = sumLens l₂ := by
  simpa [sumLens] using (h.map fun e => e.data.length).sum_eq

/-- Unfolding `remove_lru` on a state whose tail element is known and
correctly bound in the map. -/
theorem remove_lru_eq {s : CacheState} {init : List CacheElement}
    {lru : CacheElement} (hl : s.list = init ++ [lru])
    (hfind : s.mapf lru.url = some lru) :
    remove_lru s =
      { list := init,
        mapf := fun k => if k = lru.url then none else s.mapf k,
        mapCount := s.mapCount - 1,
        current_size := s.current_size - lru.data.length } := by
  simp [remove_lru, hl, mapErase, hfind]

/-- One pass of the eviction loop body: `remove_lru` preserves `EvictOk`,
removes exactly the tail, keeps the count in step with the list length,
does not touch map bindings of keys that name no list element, and
strictly decreases `current_size`. -/
theorem remove_lru_step {X : String → Prop} {s : CacheState}
    (h : EvictOk X s) {init : List CacheElement} {lru : CacheElement}
    (hl : s.list = init ++ [lru]) {c : Nat}
    (hc : s.mapCount = s.list.length + c) :
    EvictOk X (remove_lru s) ∧
      (remove_lru s).list = init ∧
      (remove_lru s).mapCount = (remove_lru s).list.length + c ∧
      (∀ u, (∀ e ∈ s.list, e.url ≠ u) →
        (remove_lru s).mapf u = s.mapf u) ∧
      (remove_lru s).current_size < s.current_size := by
  have hmem : lru ∈ s.list := by
    rw [hl]; exact List.mem_append_right _ (List.mem_singleton_self lru)
  have hfind : s.mapf lru.url = some lru := h.mem_find lru hmem
  have heq := remove_lru_eq hl hfind
  have hnd : (init.map CacheElement.url).Nodup ∧
      lru.url ∉ init.map CacheElement.url := by
    have hthis := h.nodup
    rw [hl] at hthis
    simp [List.nodup_append] at hthis
    refine ⟨hthis.1, ?_⟩
    intro hmem
    rcases List.mem_map.mp hmem with ⟨e, he, hurl⟩
    exact hthis.2 e he hurl
  have hsum : s.current_size = sumLens init + lru.data.length := by
    have := h.size_eq
    rw [hl, sumLens_append, sumLens_cons, sumLens_nil] at this
    omega
  have hlen1 : 1 ≤ lru.data.length := by
    have := h.data_ne lru hmem
    cases hd : lru.data with
    | nil => exact absurd hd this
    | cons a t => simp [hd]
  refine ⟨?_, ?_, ?_, ?_, ?_⟩
  · constructor
    · rw [heq]; simp only []
      omega
    · intro e he
      rw [heq] at he ⊢
      simp only [] at he ⊢
      have hne : e.url ≠ lru.url := by
        intro hcontra
        exact hnd.2 (hcontra ▸ List.mem_map_of_mem CacheElement.url he)
      rw [if_neg hne]
      exact h.mem_find e (by rw [hl]; exact List.mem_append_left _ he)
    · intro u e hu
      rw [heq] at hu ⊢
      simp only [] at hu ⊢
      by_cases hul : u = lru.url
      · rw [if_pos hul] at hu; exact absurd hu (by simp)
      · rw [if_neg hul] at hu
        rcases h.find_mem u e hu with hX | ⟨hmem2, hurl⟩
        · exact Or.inl hX
        · refine Or.inr ⟨?_, hurl⟩
          rw [hl] at hmem2
          rcases List.mem_append.mp hmem2 with h1 | h2
          · exact h1
          · exfalso
            have : e = lru := by simpa using h2
            exact hul (by rw [← hurl, this])
    · intro u hX e he
      rw [heq] at he; simp only [] at he
      exact h.xdisj u hX e (by rw [hl]; exact List.mem_append_left _ he)
    · rw [heq]; exact hnd.1
    · intro e he
      rw [heq] at he; simp only [] at he
      exact h.data_ne e (by rw [hl]; exact List.mem_append_left _ he)
  · rw [heq]
  · rw [heq]; simp only []
    rw [hl] at hc
    simp at hc
    omega
  · intro u hu
    rw [heq]; simp only []
    rw [if_neg (fun hcontra => hu lru hmem (by rw [hcontra]))]
  · rw [heq]; simp only []
    omega

/-- The eviction loop with fuel at least the list length: it preserves
`EvictOk` and the count/length offset, only ever truncates the list from
the tail (the result is a prefix of the input list), leaves map bindings of
keys naming no list element untouched, and — because each removal strictly
shrinks `current_size` and an empty list means `current_size = 0` — exits
with its condition false whenever `need ≤ cap`. -/
theorem evictN_ok {X : String → Prop} (cap need : Nat) :
    ∀ (n : Nat) (s : CacheState) (c : Nat), EvictOk X s →
      s.mapCount = s.list.length + c → s.list.length ≤ n → need ≤ cap →
      EvictOk X (evictN cap need n s) ∧
        (evictN cap need n s).mapCount =
          (evictN cap need n s).list.length + c ∧
        (∃ k, (evictN cap need n s).list = s.list.take k) ∧
        (∀ u, (∀ e ∈ s.list, e.url ≠ u) →
          (evictN cap need n s).mapf u = s.mapf u) ∧
        (evictN cap need n s).current_size + need ≤ cap := by
  intro n
  induction n with
  | zero =>
      intro s c h hc hlen hcap
      have hnil : s.list = [] := List.length_eq_zero.mp (Nat.le_zero.mp hlen)
      have hzero : s.current_size = 0 := by
        have := h.size_eq
        rw [hnil] at this
        simpa [sumLens_nil] using this
      exact ⟨h, hc, ⟨0, by simp [hnil, evictN]⟩, fun u _ => rfl,
        by simp [evictN, hzero]; omega⟩
  | succ n ih =>
      intro s c h hc hlen hcap
      by_cases hcond : cap < s.current_size + need
      · rcases List.eq_nil_or_concat s.list with hnil | ⟨init, lru, hl⟩
        on_goal 2 => rw [List.concat_eq_append] at hl
        · exfalso
          have hzero : s.current_size = 0 := by
            have := h.size_eq
            rw [hnil] at this
            simpa [sumLens_nil] using this
          omega
        · obtain ⟨h', hlist', hc', hpres', _⟩ := remove_lru_step h hl hc
          have hlen' : (remove_lru s).list.length ≤ n := by
            rw [hlist']
            have : s.list.length = init.length + 1 := by simp [hl]
            omega
          obtain ⟨hok, hcount, ⟨k, htake⟩, hpres, hexit⟩ :=
            ih (remove_lru s) c h' hc' hlen' hcap
          have hstep : evictN cap need (n + 1) s =
              evictN cap need n (remove_lru s) := by
            simp [evictN, hcond]
          refine ⟨hstep ▸ hok, hstep ▸ hcount, ?_, ?_, hstep ▸ hexit⟩
          · refine ⟨min k init.length, ?_⟩
            rw [hstep, htake, hlist']
            have hinit : init = s.list.take init.length := by
              rw [hl]; exact (List.take_left init [lru]).symm
            rw [hinit, List.take_take]
            simp
          · intro u hu
            rw [hstep]
            have hu' : ∀ e ∈ (remove_lru s).list, e.url ≠ u := by
              intro e he
              rw [hlist'] at he
              exact hu e (by rw [hl]; exact List.mem_append_left _ he)
            rw [hpres u hu', hpres' u hu]
      · have hstep : evictN cap need (n + 1) s = s := by
          simp [evictN, hcond]
        rw [hstep]
        exact ⟨h, hc, ⟨s.list.length, (List.take_length s.list).symm⟩,
          fun u _ => rfl, by omega⟩

theorem cacheInv_empty (cap : Nat) : CacheInv cap emptyState := by
  constructor <;> simp [emptyState, sumLens]

/-- The full invariant implies the eviction-loop invariant with no
exceptional keys. -/
theorem cacheInv_evictOk {cap : Nat} {s : CacheState} (h : CacheInv cap s) :
    EvictOk (fun _ => False) s :=
  ⟨h.size_eq, h.mem_find, fun u e hu => Or.inr (h.find_mem u e hu),
    fun _ hX => absurd hX (by simp), h.nodup, h.data_ne⟩

/-- `cache_find` preserves the invariant; on a hit the returned element is
the map binding, it carries the requested URL, and it sits at the head
(MRU position) of the updated recency list. -/
theorem cache_find_ok {cap : Nat} {s : CacheState} (h : CacheInv cap s)
    (u : String) :
    CacheInv cap (cache_find u s).2 ∧
      (cache_find u s).1 = s.mapf u ∧
      (∀ e, (cache_find u s).1 = some e →
        (cache_find u s).2.list.head? = some e ∧ e.url = u ∧
          (cache_find u s).2.current_size = s.current_size) := by
  cases hm : s.mapf u with
  | none => exact ⟨by simpa [cache_find, hm] using h, by simp [cache_find, hm],
      fun e he => by simp [cache_find, hm] at he⟩
  | some e =>
      obtain ⟨hmem, hurl⟩ := h.find_mem u e hm
      have hperm : s.list.Perm (e :: s.list.erase e) :=
        List.perm_cons_erase hmem
      have hstate : (cache_find u s).2 =
          { s with list := e :: s.list.erase e } := by
        simp [cache_find, hm]
      refine ⟨?_, by simp [cache_find, hm], fun e' he' => ?_⟩
      · constructor
        · rw [hstate]
          simpa [sumLens_perm hperm] using h.size_eq
        · rw [hstate]; exact h.size_le
        · intro u' e' hu'
          rw [hstate] at hu' ⊢
          obtain ⟨hmem', hurl'⟩ := h.find_mem u' e' hu'
          exact ⟨hperm.mem_iff.mp hmem', hurl'⟩
        · intro e' he'
          rw [hstate] at he' ⊢
          exact h.mem_find e' (hperm.mem_iff.mpr he')
        · rw [hstate]
          exact ((hperm.map CacheElement.url).nodup_iff).mp h.nodup
        · rw [hstate]
          simpa [hperm.length_eq] using h.count_eq
        · intro e' he'
          rw [hstate] at he'
          exact h.data_ne e' (hperm.mem_iff.mpr he')
      · have he2 : e = e' := by simpa [cache_find, hm] using he'
        subst he2
        exact ⟨by simp [cache_find, hm], hurl, by simp [cache_find, hm]⟩

/-- The update path of `cache_add` right after detaching the existing
element and subtracting its length (proxy_cache.c:321-322): the
eviction-loop invariant holds with the looked-up URL as the one
exceptional key (its map binding still references the detached element). -/
theorem update_detach_ok {cap : Nat} {s : CacheState} (h : CacheInv cap s)
    {url : String} {existing : CacheElement}
    (hm : s.mapf url = some existing) :
    EvictOk (fun u => u = url)
        { s with list := s.list.erase existing,
                 current_size := s.current_size - existing.data.length } ∧
      s.mapCount = (s.list.erase existing).length + 1 ∧
      existing.url = url ∧ existing ∈ s.list := by
  obtain ⟨hmem, hurl⟩ := h.find_mem url existing hm
  have hlistnd : s.list.Nodup := h.nodup.of_map
  have hperm : s.list.Perm (existing :: s.list.erase existing) :=
    List.perm_cons_erase hmem
  have hsum : s.current_size =
      existing.data.length + sumLens (s.list.erase existing) := by
    have := h.size_eq
    rw [sumLens_perm hperm, sumLens_cons] at this
    exact this
  refine ⟨⟨?_, ?_, ?_, ?_, ?_, ?_⟩, ?_, hurl, hmem⟩
  · simp only []
    omega
  · intro e he
    simp only [] at he
    exact h.mem_find e (List.mem_of_mem_erase he)
  · intro u e hu
    simp only [] at hu ⊢
    by_cases huu : u = url
    · exact Or.inl huu
    · obtain ⟨hmem', hurl'⟩ := h.find_mem u e hu
      refine Or.inr ⟨?_, hurl'⟩
      rw [hlistnd.mem_erase_iff]
      refine ⟨?_, hmem'⟩
      intro hee
      exact huu (by rw [← hurl', hee, hurl])
  · intro u huu e he hurl'
    simp only [] at he
    rw [hlistnd.mem_erase_iff] at he
    have : e = existing :=
      List.inj_on_of_nodup_map h.nodup he.2 hmem (by rw [hurl', huu, hurl])
    exact he.1 this
  · simp only []
    exact h.nodup.sublist ((s.list.erase_sublist existing).map CacheElement.url)
  · intro e he
    simp only [] at he
    exact h.data_ne e (List.mem_of_mem_erase he)
  · have hlen := List.length_erase_of_mem hmem
    have hpos : 0 < s.list.length := List.length_pos.mpr (by
      intro hnil; rw [hnil] at hmem; exact absurd hmem (List.not_mem_nil _))
    rw [h.count_eq, hlen]
    omega


/-- Two cache states with the same four fields are equal. -/
theorem cacheState_eq {a b : CacheState} (h1 : a.list = b.list)
    (h2 : a.mapf = b.mapf) (h3 : a.mapCount = b.mapCount)
    (h4 : a.current_size = b.current_size) : a = b := by
  cases a; cases b; simp_all

/-- `update_detach_ok`, phrased for any state `R` whose fields are those of
the detached intermediate state of the update path. -/
theorem update_detach_ok2 {cap : Nat} {s R : CacheState}
    (h : CacheInv cap s) {url : String} {existing : CacheElement}
    (hm : s.mapf url = some existing)
    (hRl : R.list = s.list.erase existing) (hRm : R.mapf = s.mapf)
    (hRc : R.mapCount = s.mapCount)
    (hRs : R.current_size = s.current_size - existing.data.length) :
    EvictOk (fun u => u = url) R ∧
      R.mapCount = R.list.length + 1 ∧
      existing.url = url ∧ existing ∈ s.list := by
  obtain ⟨hok, hcount, hurl, hmem⟩ := update_detach_ok h hm
  have hReq : R =
      { s with list := s.list.erase existing,
               current_size := s.current_size - existing.data.length } :=
    cacheState_eq hRl hRm hRc hRs
  subst hReq
  exact ⟨hok, by simpa using hcount, hurl, hmem⟩

/-- The update branch of `cache_add` (existing key, payload allocation
succeeds), written as an equation over the detached intermediate state. -/
theorem cache_add_update_view {cap : Nat} {url : String} {data : List Nat}
    {s : CacheState} {existing : CacheElement}
    (hg : ¬(data = [] ∨ cap < data.length))
    (hm : s.mapf url = some existing) :
    ∃ R : CacheState,
      R.list = s.list.erase existing ∧ R.mapf = s.mapf ∧
      R.mapCount = s.mapCount ∧
      R.current_size = s.current_size - existing.data.length ∧
      cache_add cap url data s =
        { list := ⟨existing.url, data⟩ ::
            (evictWhile cap data.length R).list,
          mapf := fun k =>
            if k = url then
              ((evictWhile cap data.length R).mapf url).map
                fun _ => ⟨existing.url, data⟩
            else (evictWhile cap data.length R).mapf k,
          mapCount := (evictWhile cap data.length R).mapCount,
          current_size :=
            (evictWhile cap data.length R).current_size + data.length } := by
  refine ⟨{ s with list := s.list.erase existing,
                   current_size := s.current_size - existing.data.length },
    rfl, rfl, rfl, rfl, ?_⟩
  simp only [cache_add, cache_addAlloc, allocOk, if_neg hg, hm, if_true]

/-- The insert branch of `cache_add` (no existing key, all allocations
succeed), written as an equation over the post-eviction state. -/
theorem cache_add_insert_view {cap : Nat} {url : String} {data : List Nat}
    {s : CacheState} (hg : ¬(data = [] ∨ cap < data.length))
    (hm : s.mapf url = none)
    (hfind : (evictWhile cap data.length s).mapf url = none) :
    cache_add cap url data s =
      { list := ⟨url, data⟩ :: (evictWhile cap data.length s).list,
        mapf := fun k =>
          if k = url then some ⟨url, data⟩
          else (evictWhile cap data.length s).mapf k,
        mapCount := (evictWhile cap data.length s).mapCount + 1,
        current_size :=
          (evictWhile cap data.length s).current_size + data.length } := by
  simp only [cache_add, cache_addAlloc, allocOk, if_neg hg, hm, mapInsert,
    hfind, Option.isSome_none, Bool.false_eq_true, if_false, if_true]
  simp

/-- `evictN_ok` specialized to the fuel used by `cache_add`. -/
theorem evictWhile_ok {X : String → Prop} {cap need : Nat} {s : CacheState}
    {c : Nat} (h : EvictOk X s) (hc : s.mapCount = s.list.length + c)
    (hcap : need ≤ cap) :
    EvictOk X (evictWhile cap need s) ∧
      (evictWhile cap need s).mapCount =
        (evictWhile cap need s).list.length + c ∧
      (∃ k, (evictWhile cap need s).list = s.list.take k) ∧
      (∀ u, (∀ e ∈ s.list, e.url ≠ u) →
        (evictWhile cap need s).mapf u = s.mapf u) ∧
      (evictWhile cap need s).current_size + need ≤ cap :=
  evictN_ok cap need s.list.length s c h hc (le_refl _) hcap

/-- `cache_add` on the nominal path with an admissible payload: the
invariant is preserved, and afterwards the URL is bound in the map to an
element carrying exactly the new payload, which sits at the head (MRU
position) of the recency list. -/
theorem cache_add_ok {cap : Nat} {s : CacheState} (h : CacheInv cap s)
    (url : String) (data : List Nat) (hd : data ≠ [])
    (hlen : data.length ≤ cap) :
    CacheInv cap (cache_add cap url data s) ∧
      (cache_add cap url data s).mapf url = some ⟨url, data⟩ ∧
      (cache_add cap url data s).list.head? = some ⟨url, data⟩ := by
  have hg : ¬(data = [] ∨ cap < data.length) := by
    rintro (hc | hc)
    · exact hd hc
    · omega
  cases hm : s.mapf url with
  | some existing =>
      obtain ⟨R, hRl, hRm, hRc, hRs, heq⟩ :=
        cache_add_update_view hg hm
      obtain ⟨hok1, hcount1, hurl, hmem⟩ :=
        update_detach_ok2 h hm hRl hRm hRc hRs
      obtain ⟨hok2, hcount2, ⟨k, htake⟩, hpres2, hexit2⟩ :=
        evictWhile_ok hok1 hcount1 hlen
      have hxurl : ∀ e ∈ R.list, e.url ≠ url := hok1.xdisj url rfl
      have hs2find : (evictWhile cap data.length R).mapf url =
          some existing := by
        rw [hpres2 url hxurl, hRm]
        exact hm
      simp only [hs2find, Option.map_some, Option.map_some', hurl] at heq
      generalize hA : evictWhile cap data.length R = A at heq hok2 hcount2 htake hpres2 hexit2 hs2find
      have hnotin : ∀ e ∈ A.list, e.url ≠ url := hok2.xdisj url rfl
      refine ⟨?_, ?_, ?_⟩
      · constructor
        · rw [heq]
          simp only [sumLens_cons]
          have := hok2.size_eq
          omega
        · rw [heq]
          simp only []
          omega
        · intro u e hu
          rw [heq] at hu ⊢
          simp only [] at hu ⊢
          by_cases huu : u = url
          · rw [if_pos huu] at hu
            obtain rfl : ({ url := url, data := data } : CacheElement) = e :=
              Option.some_injective _ hu
            exact ⟨List.mem_cons_self _ _, huu.symm⟩
          · rw [if_neg huu] at hu
            rcases hok2.find_mem u e hu with hX | ⟨hmem', hurl'⟩
            · exact absurd hX huu
            · exact ⟨List.mem_cons_of_mem _ hmem', hurl'⟩
        · intro e he
          rw [heq] at he ⊢
          simp only [List.mem_cons] at he
          rcases he with rfl | hmem'
          · simp
          · simp only []
            rw [if_neg (hnotin e hmem')]
            exact hok2.mem_find e hmem'
        · rw [heq]
          simp only [List.map_cons]
          refine List.nodup_cons.mpr ⟨?_, hok2.nodup⟩
          intro hcontra
          rcases List.mem_map.mp hcontra with ⟨e, he, hurl'⟩
          exact hnotin e he hurl'
        · rw [heq]
          simp only [List.length_cons]
          omega
        · intro e he
          rw [heq] at he
          simp only [List.mem_cons] at he
          rcases he with rfl | hmem'
          · exact hd
          · exact hok2.data_ne e hmem'
      · rw [heq]
        simp
      · rw [heq]
        simp
  | none =>
      have hok1 := cacheInv_evictOk h
      have hcount1 : s.mapCount = s.list.length + 0 := by
        simpa using h.count_eq
      obtain ⟨hok2, hcount2, ⟨k, htake⟩, hpres2, hexit2⟩ :=
        evictWhile_ok hok1 hcount1 hlen
      have hxurl : ∀ e ∈ s.list, e.url ≠ url := by
        intro e he hcontra
        have hfe := h.mem_find e he
        rw [hcontra, hm] at hfe
        cases hfe
      have hfind : (evictWhile cap data.length s).mapf url = none := by
        rw [hpres2 url hxurl]
        exact hm
      have heq := cache_add_insert_view hg hm hfind
      generalize hA : evictWhile cap data.length s = A at heq hok2 hcount2 htake hpres2 hexit2 hfind
      have hnotin : ∀ e ∈ A.list, e.url ≠ url := by
        intro e he
        rw [htake] at he
        exact hxurl e (List.take_subset k s.list he)
      refine ⟨?_, ?_, ?_⟩
      · constructor
        · rw [heq]
          simp only [sumLens_cons]
          have := hok2.size_eq
          omega
        · rw [heq]
          simp only []
          omega
        · intro u e hu
          rw [heq] at hu ⊢
          simp only [] at hu ⊢
          by_cases huu : u = url
          · rw [if_pos huu] at hu
            obtain rfl : ({ url := url, data := data } : CacheElement) = e :=
              Option.some_injective _ hu
            exact ⟨List.mem_cons_self _ _, huu.symm⟩
          · rw [if_neg huu] at hu
            rcases hok2.find_mem u e hu with hX | ⟨hmem', hurl'⟩
            · exact absurd hX (by simp)
            · exact ⟨List.mem_cons_of_mem _ hmem', hurl'⟩
        · intro e he
          rw [heq] at he ⊢
          simp only [List.mem_cons] at he
          rcases he with rfl | hmem'
          · simp
          · simp only []
            rw [if_neg (hnotin e hmem')]
            exact hok2.mem_find e hmem'
        · rw [heq]
          simp only [List.map_cons]
          refine List.nodup_cons.mpr ⟨?_, hok2.nodup⟩
          intro hcontra
          rcases List.mem_map.mp hcontra with ⟨e, he, hurl'⟩
          exact hnotin e he hurl'
        · rw [heq]
          simp only [List.length_cons]
          omega
        · intro e he
          rw [heq] at he
          simp only [List.mem_cons] at he
          rcases he with rfl | hmem'
          · exact hd
          · exact hok2.data_ne e hmem'
      · rw [heq]
        simp
      · rw [heq]
        simp

/-- The guard of `cache_add` (proxy_cache.c:302): inadmissible payloads
leave the state untouched, for every allocation plan. -/
theorem cache_addAlloc_guard {cap : Nat} {plan : AllocPlan} {url : String}
    {data : List Nat} {s : CacheState}
    (h : data = [] ∨ cap < data.length) :
    cache_addAlloc cap plan url data s = s := by
  simp [cache_addAlloc, h]

/-- Every public operation preserves the cache invariant. -/
theorem cacheInv_applyOp {cap : Nat} {s : CacheState} (h : CacheInv cap s)
    (op : Op) : CacheInv cap (applyOp cap s op) := by
  cases op with
  | put url data =>
      by_cases hadm : data = [] ∨ cap < data.length
      · simpa [applyOp, cache_add, cache_addAlloc_guard hadm] using h
      · push_neg at hadm
        exact (cache_add_ok h url data hadm.1 (by omega)).1
  | get url => exact (cache_find_ok h url).1

/-- Every state reached from a given invariant state satisfies the
invariant. -/
theorem cacheInv_foldl {cap : Nat} (ops : List Op) :
    ∀ s : CacheState, CacheInv cap s →
      CacheInv cap (ops.foldl (applyOp cap) s) := by
  induction ops with
  | nil => intro s h; exact h
  | cons op rest ih =>
      intro s h
      exact ih (applyOp cap s op) (cacheInv_applyOp h op)

/-- Every state reached from the empty cache by public operations
satisfies the invariant. -/
theorem cacheInv_runOps (cap : Nat) (ops : List Op) :
    CacheInv cap (runOps cap ops) :=
  cacheInv_foldl ops emptyState (cacheInv_empty cap)

/-- The update branch of `cache_addAlloc` when the payload reallocation
fails (proxy_cache.c:333-346): the already-detached element is erased from
the map and the evictions stand. -/
theorem cache_addAlloc_update_fail_view {cap : Nat} {plan : AllocPlan}
    {url : String} {data : List Nat} {s : CacheState}
    {existing : CacheElement} (hg : ¬(data = [] ∨ cap < data.length))
    (hm : s.mapf url = some existing) (hdOk : plan.dataOk = false) :
    ∃ R : CacheState,
      R.list = s.list.erase existing ∧ R.mapf = s.mapf ∧
      R.mapCount = s.mapCount ∧
      R.current_size = s.current_size - existing.data.length ∧
      cache_addAlloc cap plan url data s =
        mapErase existing.url (evictWhile cap data.length R) := by
  refine ⟨{ s with list := s.list.erase existing,
                   current_size := s.current_size - existing.data.length },
    rfl, rfl, rfl, rfl, ?_⟩
  simp only [cache_addAlloc, if_neg hg, hm, hdOk, Bool.false_eq_true,
    if_false]

/-- The insert branch of `cache_addAlloc` when the element, key, or
payload allocation fails (proxy_cache.c:366-395): the evictions stand and
nothing else changes. -/
theorem cache_addAlloc_insert_fail_view {cap : Nat} {plan : AllocPlan}
    {url : String} {data : List Nat} {s : CacheState}
    (hg : ¬(data = [] ∨ cap < data.length)) (hm : s.mapf url = none)
    (hfail : plan.elemOk = false ∨ plan.urlOk = false ∨
      plan.dataOk = false) :
    cache_addAlloc cap plan url data s = evictWhile cap data.length s := by
  rcases hfail with hf | hf | hf <;>
    simp [cache_addAlloc, if_neg hg, hm, hf]

/-- The insert branch of `cache_addAlloc` when only the hash-map node
allocation fails (hashmap.c:159-160): the new element is already linked at
the head of the recency list and `current_size` is increased, but the map
is left without a binding for it. -/
theorem cache_addAlloc_node_fail_view {cap : Nat} {plan : AllocPlan}
    {url : String} {data : List Nat} {s : CacheState}
    (hg : ¬(data = [] ∨ cap < data.length)) (hm : s.mapf url = none)
    (heOk : plan.elemOk = true) (huOk : plan.urlOk = true)
    (hdOk : plan.dataOk = true) (hnOk : plan.nodeOk = false)
    (hfind : (evictWhile cap data.length s).mapf url = none) :
    cache_addAlloc cap plan url data s =
      { list := ⟨url, data⟩ :: (evictWhile cap data.length s).list,
        mapf := (evictWhile cap data.length s).mapf,
        mapCount := (evictWhile cap data.length s).mapCount,
        current_size :=
          (evictWhile cap data.length s).current_size + data.length } := by
  simp only [cache_addAlloc, if_neg hg, hm, heOk, huOk, hdOk, hnOk,
    mapInsert, hfind, Option.isSome_none, Bool.false_eq_true, if_false]
  simp

/-- On the update branch the allocation plan is only consulted for the
payload buffer, so with `dataOk` the result coincides with the nominal
`cache_add`. -/
theorem cache_addAlloc_update_eq_add {cap : Nat} {plan : AllocPlan}
    {url : String} {data : List Nat} {s : CacheState}
    {existing : CacheElement} (hg : ¬(data = [] ∨ cap < data.length))
    (hm : s.mapf url = some existing) (hdOk : plan.dataOk = true) :
    cache_addAlloc cap plan url data s = cache_add cap url data s := by
  simp only [cache_add, cache_addAlloc, if_neg hg, hm, hdOk, allocOk]

/-- A plan with all allocations succeeding is the nominal plan. -/
theorem cache_addAlloc_all_ok {cap : Nat} {plan : AllocPlan} {url : String}
    {data : List Nat} {s : CacheState} (he : plan.elemOk = true)
    (hu : plan.urlOk = true) (hd2 : plan.dataOk = true)
    (hn : plan.nodeOk = true) :
    cache_addAlloc cap plan url data s = cache_add cap url data s := by
  have hplan : plan = allocOk := by
    cases plan
    simp_all [allocOk]
  rw [hplan, cache_add]

/-- C3 (amended): on every allocation-failure path of `cache_add` the
operation inserts no new payload, `current_bytes` stays equal to the sum of
the payload lengths over the recency list and within the capacity, and
every map binding still references a live list element with the right key.
The claim's stronger guarantees fail: evictions already performed and the
removal of an overwritten entry are not rolled back, and a failed hash-map
node allocation leaves the new element in the list but not in the map (the
counterexample exhibits both). -/
theorem C3_alloc_failure_partial_consistency (cap : Nat) (plan : AllocPlan)
    (url : String) (data : List Nat) (s : CacheState)
    (h : CacheInv cap s) :
    ((cache_addAlloc cap plan url data s).current_size =
        sumLens (cache_addAlloc cap plan url data s).list) ∧
      ((cache_addAlloc cap plan url data s).current_size ≤ cap) ∧
      (∀ u e, (cache_addAlloc cap plan url data s).mapf u = some e →
        e ∈ (cache_addAlloc cap plan url data s).list ∧ e.url = u) := by
  by_cases hg : data = [] ∨ cap < data.length
  · rw [cache_addAlloc_guard hg]
    exact ⟨h.size_eq, h.size_le, h.find_mem⟩
  · have hlen : data.length ≤ cap := by
      rcases not_or.mp hg with ⟨h1, h2⟩
      omega
    have hd : data ≠ [] := by
      rcases not_or.mp hg with ⟨h1, h2⟩
      exact h1
    cases hm : s.mapf url with
    | some existing =>
        cases hdOk : plan.dataOk with
        | true =>
            rw [cache_addAlloc_update_eq_add hg hm hdOk]
            have hinv := (cache_add_ok h url data hd hlen).1
            exact ⟨hinv.size_eq, hinv.size_le, hinv.find_mem⟩
        | false =>
            obtain ⟨R, hRl, hRm, hRc, hRs, heq⟩ :=
              cache_addAlloc_update_fail_view hg hm hdOk
            obtain ⟨hok1, hcount1, hurl, hmem⟩ :=
              update_detach_ok2 h hm hRl hRm hRc hRs
            obtain ⟨hok2, hcount2, ⟨k, htake⟩, hpres2, hexit2⟩ :=
              evictWhile_ok hok1 hcount1 hlen
            have hxurl : ∀ e ∈ R.list, e.url ≠ url := hok1.xdisj url rfl
            have hAfind : (evictWhile cap data.length R).mapf url =
                some existing := by
              rw [hpres2 url hxurl, hRm]
              exact hm
            rw [heq]
            generalize hA : evictWhile cap data.length R = A
              at heq hok2 hcount2 htake hpres2 hexit2 hAfind
            have hsomeE : (A.mapf existing.url).isSome := by
              rw [hurl, hAfind]
              rfl
            have hmer : mapErase existing.url A =
                { A with
                    mapf := fun k =>
                      if k = existing.url then none else A.mapf k,
                    mapCount := A.mapCount - 1 } := by
              simp [mapErase, hsomeE]
            rw [hmer]
            refine ⟨?_, ?_, ?_⟩
            · simpa using hok2.size_eq
            · simp only []
              omega
            · intro u e hu
              simp only [] at hu ⊢
              by_cases huu : u = existing.url
              · rw [if_pos huu] at hu
                cases hu
              · rw [if_neg huu] at hu
                rcases hok2.find_mem u e hu with hX | hmem'
                · exact absurd (hurl ▸ hX) huu
                · exact hmem'
    | none =>
        by_cases hfail : plan.elemOk = false ∨ plan.urlOk = false ∨
            plan.dataOk = false
        · rw [cache_addAlloc_insert_fail_view hg hm hfail]
          have hok1 := cacheInv_evictOk h
          have hcount1 : s.mapCount = s.list.length + 0 := by
            simpa using h.count_eq
          obtain ⟨hok2, hcount2, ⟨k, htake⟩, hpres2, hexit2⟩ :=
            evictWhile_ok hok1 hcount1 hlen
          refine ⟨hok2.size_eq, by omega, ?_⟩
          intro u e hu
          rcases hok2.find_mem u e hu with hX | hmem'
          · exact absurd hX (by simp)
          · exact hmem'
        · push_neg at hfail
          obtain ⟨hf1, hf2, hf3⟩ := hfail
          have he1 : plan.elemOk = true := by simpa using hf1
          have he2 : plan.urlOk = true := by simpa using hf2
          have he3 : plan.dataOk = true := by simpa using hf3
          cases hnOk : plan.nodeOk with
          | true =>
              rw [cache_addAlloc_all_ok he1 he2 he3 hnOk]
              have hinv := (cache_add_ok h url data hd hlen).1
              exact ⟨hinv.size_eq, hinv.size_le, hinv.find_mem⟩
          | false =>
              have hok1 := cacheInv_evictOk h
              have hcount1 : s.mapCount = s.list.length + 0 := by
                simpa using h.count_eq
              obtain ⟨hok2, hcount2, ⟨k, htake⟩, hpres2, hexit2⟩ :=
                evictWhile_ok hok1 hcount1 hlen
              have hxurl : ∀ e ∈ s.list, e.url ≠ url := by
                intro e he hcontra
                have hfe := h.mem_find e he
                rw [hcontra, hm] at hfe
                cases hfe
              have hfind : (evictWhile cap data.length s).mapf url =
                  none := by
                rw [hpres2 url hxurl]
                exact hm
              rw [cache_addAlloc_node_fail_view hg hm he1 he2 he3 hnOk
                hfind]
              generalize hA : evictWhile cap data.length s = A
                at hok2 hcount2 htake hpres2 hexit2 hfind
              refine ⟨?_, ?_, ?_⟩
              · simp only [sumLens_cons]
                have := hok2.size_eq
                omega
              · simp only []
                omega
              · intro u e hu
                simp only [] at hu ⊢
                rcases hok2.find_mem u e hu with hX | ⟨hmem', hurl'⟩
                · exact absurd hX (by simp)
                · exact ⟨List.mem_cons_of_mem _ hmem', hurl'⟩

/-- The streaming loop forwards every received chunk to the client, in
order. -/
theorem streamLoop_sent_aux (cap : Nat) (chunks : List (List Nat)) :
    ∀ acc : List Nat × Option (List Nat),
      (chunks.foldl (streamStep cap) acc).1 = acc.1 ++ chunks.flatten := by
  induction chunks with
  | nil => intro acc; simp
  | cons c rest ih =>
      intro acc
      simp only [List.foldl_cons, List.flatten_cons]
      rw [ih]
      simp [streamStep, List.append_assoc]

/-- While caching stays active, the cache buffer equals the bytes sent so
far and never exceeds the cap. -/
theorem streamLoop_stored_aux (cap : Nat) (chunks : List (List Nat)) :
    ∀ acc : List Nat × Option (List Nat),
      (∀ b, acc.2 = some b → b = acc.1 ∧ b.length ≤ cap) →
      ∀ b, (chunks.foldl (streamStep cap) acc).2 = some b →
        b = (chunks.foldl (streamStep cap) acc).1 ∧ b.length ≤ cap := by
  induction chunks with
  | nil =>
      intro acc hacc b hb
      exact hacc b hb
  | cons c rest ih =>
      intro acc hacc b hb
      refine ih _ ?_ b hb
      intro b' hb'
      rcases hstep : acc.2 with _ | buf
      · simp [streamStep, hstep] at hb'
      · simp only [streamStep, hstep] at hb'
        by_cases hov : cap < buf.length + c.length
        · rw [if_pos hov] at hb'
          cases hb'
        · rw [if_neg hov] at hb'
          have hb2 : buf ++ c = b' := Option.some_injective _ hb'
          obtain ⟨hbe, hble⟩ := hacc buf hstep
          subst hb2
          constructor
          · simp [streamStep, hbe]
          · simp only [List.length_append]
            omega

/-- C1: for every sequence of public cache operations (put/get) starting
from the empty cache, after each call `current_bytes` equals the sum of
the payload lengths of the live entries and is at most the capacity, every
map binding references a node of the recency list carrying that URL and
every list node has its map binding (each entry is in both structures or
in neither), and the list length equals the map size. -/
theorem C1_cache_invariants (cap : Nat) (ops : List Op) :
    (runOps cap ops).current_size = sumLens (runOps cap ops).list ∧
      (runOps cap ops).current_size ≤ cap ∧
      (∀ u e, (runOps cap ops).mapf u = some e →
        e ∈ (runOps cap ops).list ∧ e.url = u) ∧
      (∀ e ∈ (runOps cap ops).list,
        (runOps cap ops).mapf e.url = some e) ∧
      (runOps cap ops).mapCount = (runOps cap ops).list.length := by
  have h := cacheInv_runOps cap ops
  exact ⟨h.size_eq, h.size_le, h.find_mem, h.mem_find, h.count_eq⟩

/-- C3 counterexample: two allocation-failure executions of `cache_add`
(`proxy_cache.c`) violate the claim.  (a) With an entry stored under `"u"`,
a `put("u", …)` whose payload `malloc` fails erases the existing entry
entirely (line 338), so the prior state is not restored and the entry
under `url` IS lost.  (b) A `put("v", …)` whose hash-map node `malloc`
fails (hashmap.c:160) leaves the new element linked in the recency list
with its length counted, but absent from the map — a partially linked
entry. -/
theorem C3_counterexample :
    ((cache_addAlloc 100 ⟨true, true, false, true⟩ "u" [3, 4]
        (cache_add 100 "u" [1, 2] emptyState)).mapf "u" = none ∧
      (cache_addAlloc 100 ⟨true, true, false, true⟩ "u" [3, 4]
        (cache_add 100 "u" [1, 2] emptyState)).list = []) ∧
      ((cache_addAlloc 100 ⟨true, true, true, false⟩ "v" [7]
          emptyState).list = [⟨"v", [7]⟩] ∧
        (cache_addAlloc 100 ⟨true, true, true, false⟩ "v" [7]
          emptyState).mapf "v" = none ∧
        (cache_addAlloc 100 ⟨true, true, true, false⟩ "v" [7]
          emptyState).current_size = 1) := by
  decide

theorem C3_witness :
    (cache_addAlloc 100 ⟨true, true, false, true⟩ "w" [1]
        emptyState).current_size =
      sumLens (cache_addAlloc 100 ⟨true, true, false, true⟩ "w" [1]
        emptyState).list ∧
      (cache_addAlloc 100 ⟨true, true, false, true⟩ "w" [1]
          emptyState).current_size ≤ 100 ∧
      (∀ u e, (cache_addAlloc 100 ⟨true, true, false, true⟩ "w" [1]
          emptyState).mapf u = some e →
        e ∈ (cache_addAlloc 100 ⟨true, true, false, true⟩ "w" [1]
          emptyState).list ∧ e.url = u) :=
  C3_alloc_failure_partial_consistency 100 ⟨true, true, false, true⟩ "w"
    [1] emptyState (cacheInv_empty 100)

/-- C4: for an admissible payload (nonempty, within capacity) and any
invariant state, `put(u, b); get(u)` returns the element carrying exactly
`b` byte for byte, and `put(u, b1); put(u, b2); get(u)` returns the
element carrying exactly `b2`. -/
theorem C4_put_get_round_trip (cap : Nat) (u : String) (b1 b2 : List Nat)
    (s : CacheState) (h : CacheInv cap s) (_hu : u ≠ "")
    (hb2 : b2 ≠ []) (hb2le : b2.length ≤ cap)
    (hb1 : b1 ≠ []) (hb1le : b1.length ≤ cap) :
    (cache_find u (cache_add cap u b2 s)).1 = some ⟨u, b2⟩ ∧
      (cache_find u
        (cache_add cap u b2 (cache_add cap u b1 s))).1 = some ⟨u, b2⟩ := by
  obtain ⟨hinv1, hfind1, _⟩ := cache_add_ok h u b2 hb2 hb2le
  obtain ⟨hinvA, _, _⟩ := cache_add_ok h u b1 hb1 hb1le
  obtain ⟨hinv2, hfind2, _⟩ := cache_add_ok hinvA u b2 hb2 hb2le
  constructor
  · simp [cache_find, hfind1]
  · simp [cache_find, hfind2]

theorem C4_witness :
    (cache_find "a" (cache_add 10 "a" [5] emptyState)).1 =
        some ⟨"a", [5]⟩ ∧
      (cache_find "a"
        (cache_add 10 "a" [5] (cache_add 10 "a" [9, 9] emptyState))).1 =
        some ⟨"a", [5]⟩ :=
  C4_put_get_round_trip 10 "a" [9, 9] [5] emptyState (cacheInv_empty 10)
    (by decide) (by decide) (by decide) (by decide) (by decide)

/-- C5: after a `get` hit the returned element is at the head (MRU
position) of the recency list and carries the requested URL; `remove_lru`
removes exactly the tail entry; the eviction loop of `put` only truncates
the list from the tail (the survivors are a prefix of the recency order,
so entries fall in reverse order of most-recent access); and concretely,
after inserting u1, u2, u3 (30 bytes each, capacity 100), touching u1 with
`get`, a `put(u4)` that must evict one entry evicts u2 — not u1 — leaving
u1, u3, u4 live. -/
theorem C5_lru_eviction_order (cap need : Nat) (s : CacheState)
    (h : CacheInv cap s) (u : String) :
    (∀ e, (cache_find u s).1 = some e →
        (cache_find u s).2.list.head? = some e ∧ e.url = u) ∧
      (s.list ≠ [] → (remove_lru s).list = s.list.dropLast) ∧
      (need ≤ cap → ∃ k, (evictWhile cap need s).list = s.list.take k) ∧
      ((cache_add 100 "u4" (List.replicate 30 0)
          ((cache_find "u1"
            (cache_add 100 "u3" (List.replicate 30 0)
              (cache_add 100 "u2" (List.replicate 30 0)
                (cache_add 100 "u1" (List.replicate 30 0)
                  emptyState)))).2)).mapf "u2" = none ∧
        ((cache_add 100 "u4" (List.replicate 30 0)
          ((cache_find "u1"
            (cache_add 100 "u3" (List.replicate 30 0)
              (cache_add 100 "u2" (List.replicate 30 0)
                (cache_add 100 "u1" (List.replicate 30 0)
                  emptyState)))).2)).mapf "u1").isSome = true ∧
        ((cache_add 100 "u4" (List.replicate 30 0)
          ((cache_find "u1"
            (cache_add 100 "u3" (List.replicate 30 0)
              (cache_add 100 "u2" (List.replicate 30 0)
                (cache_add 100 "u1" (List.replicate 30 0)
                  emptyState)))).2)).mapf "u3").isSome = true ∧
        ((cache_add 100 "u4" (List.replicate 30 0)
          ((cache_find "u1"
            (cache_add 100 "u3" (List.replicate 30 0)
              (cache_add 100 "u2" (List.replicate 30 0)
                (cache_add 100 "u1" (List.replicate 30 0)
                  emptyState)))).2)).mapf "u4").isSome = true) := by
  refine ⟨?_, ?_, ?_, by decide⟩
  · intro e he
    obtain ⟨_, _, hhit⟩ := cache_find_ok h u
    obtain ⟨hhead, hurl, _⟩ := hhit e he
    exact ⟨hhead, hurl⟩
  · intro hne
    rcases List.eq_nil_or_concat s.list with hnil | ⟨init, lru, hl⟩
    · exact absurd hnil hne
    · rw [List.concat_eq_append] at hl
      have hmem : lru ∈ s.list := by
        rw [hl]
        exact List.mem_append_right _ (List.mem_singleton_self lru)
      have heq := remove_lru_eq hl (h.mem_find lru hmem)
      rw [heq, hl]
      simp
  · intro hneed
    have hok1 := cacheInv_evictOk h
    have hcount1 : s.mapCount = s.list.length + 0 := by
      simpa using h.count_eq
    obtain ⟨_, _, htake, _, _⟩ := evictWhile_ok hok1 hcount1 hneed
    exact htake

theorem C5_witness :
    (∀ e, (cache_find "z" emptyState).1 = some e →
        (cache_find "z" emptyState).2.list.head? = some e ∧ e.url = "z") ∧
      (emptyState.list ≠ [] →
        (remove_lru emptyState).list = emptyState.list.dropLast) ∧
      (7 ≤ 50 → ∃ k,
        (evictWhile 50 7 emptyState).list = emptyState.list.take k) ∧
      ((cache_add 100 "u4" (List.replicate 30 0)
          ((cache_find "u1"
            (cache_add 100 "u3" (List.replicate 30 0)
              (cache_add 100 "u2" (List.replicate 30 0)
                (cache_add 100 "u1" (List.replicate 30 0)
                  emptyState)))).2)).mapf "u2" = none ∧
        ((cache_add 100 "u4" (List.replicate 30 0)
          ((cache_find "u1"
            (cache_add 100 "u3" (List.replicate 30 0)
              (cache_add 100 "u2" (List.replicate 30 0)
                (cache_add 100 "u1" (List.replicate 30 0)
                  emptyState)))).2)).mapf "u1").isSome = true ∧
        ((cache_add 100 "u4" (List.replicate 30 0)
          ((cache_find "u1"
            (cache_add 100 "u3" (List.replicate 30 0)
              (cache_add 100 "u2" (List.replicate 30 0)
                (cache_add 100 "u1" (List.replicate 30 0)
                  emptyState)))).2)).mapf "u3").isSome = true ∧
        ((cache_add 100 "u4" (List.replicate 30 0)
          ((cache_find "u1"
            (cache_add 100 "u3" (List.replicate 30 0)
              (cache_add 100 "u2" (List.replicate 30 0)
                (cache_add 100 "u1" (List.replicate 30 0)
                  emptyState)))).2)).mapf "u4").isSome = true) :=
  C5_lru_eviction_order 50 7 emptyState (cacheInv_empty 50) "z"

/-- C6: for every invariant state and admissible payload length, the
eviction loop of `put` exits with its condition false
(`current_bytes + need ≤ capacity`), so the source's `while` loop
terminates; each removal on a nonempty list strictly decreases
`current_bytes`; and on an empty list the loop condition
`current_bytes + need > capacity` is already false. -/
theorem C6_eviction_loop_terminates (cap need : Nat) (s : CacheState)
    (h : CacheInv cap s) (hneed : need ≤ cap) :
    ((evictWhile cap need s).current_size + need ≤ cap) ∧
      (s.list ≠ [] → (remove_lru s).current_size < s.current_size) ∧
      (s.list = [] → ¬(cap < s.current_size + need)) := by
  have hok1 := cacheInv_evictOk h
  have hcount1 : s.mapCount = s.list.length + 0 := by
    simpa using h.count_eq
  obtain ⟨_, _, _, _, hexit⟩ := evictWhile_ok hok1 hcount1 hneed
  refine ⟨hexit, ?_, ?_⟩
  · intro hne
    rcases List.eq_nil_or_concat s.list with hnil | ⟨init, lru, hl⟩
    · exact absurd hnil hne
    · rw [List.concat_eq_append] at hl
      obtain ⟨_, _, _, _, hdec⟩ := remove_lru_step hok1 hl hcount1
      exact hdec
  · intro hnil
    have hzero : s.current_size = 0 := by
      have := h.size_eq
      rw [hnil] at this
      simpa [sumLens_nil] using this
    omega

theorem C6_witness :
    ((evictWhile 10 5
        (cache_add 10 "a" [1, 2] emptyState)).current_size + 5 ≤ 10) ∧
      ((cache_add 10 "a" [1, 2] emptyState).list ≠ [] →
        (remove_lru (cache_add 10 "a" [1, 2] emptyState)).current_size <
          (cache_add 10 "a" [1, 2] emptyState).current_size) ∧
      ((cache_add 10 "a" [1, 2] emptyState).list = [] →
        ¬(10 < (cache_add 10 "a" [1, 2] emptyState).current_size + 5)) :=
  C6_eviction_loop_terminates 10 5 _
    ((cache_add_ok (cacheInv_empty 10) "a" [1, 2] (by decide)
      (by decide)).1) (by decide)

set_option maxRecDepth 16384 in
/-- C7 counterexample: in the C implementation `cache_find` returns the
`cache_element *` itself, not a clone.  Concretely: after `put("u",
[1,2,3])`, `get("u")` hands the caller an element whose `data` field is
the *address* (0) of the cache's own payload buffer; a later
`put("u", [9,9])` `free`s that buffer (proxy_cache.c:331), so the address
the caller still holds no longer refers to live bytes — later cache
operations DO invalidate the bytes the caller holds. -/
theorem C7_counterexample :
    (CPtr.hFind "u" (CPtr.hAdd 100 "u" [1, 2, 3] CPtr.hEmpty)).1 =
        some ⟨"u", 0, 3⟩ ∧
      CPtr.hLookup (CPtr.hAdd 100 "u" [1, 2, 3] CPtr.hEmpty).heap 0 =
        some [1, 2, 3] ∧
      CPtr.hLookup
        (CPtr.hAdd 100 "u" [9, 9]
          (CPtr.hFind "u"
            (CPtr.hAdd 100 "u" [1, 2, 3] CPtr.hEmpty)).2).heap 0 =
        none := by
  exact ⟨rfl, rfl, rfl⟩

/-- C7 (amended): the C++ implementation does return a snapshot — on a hit
`cache_find` returns, by value, bytes equal to the stored payload at the
moment of lookup (and the empty vector on an empty URL or a miss); the C
implementation instead returns a pointer to the internal entry whose
payload buffer a later `put` to the same URL frees (see the
counterexample). -/
theorem C7_get_returns_snapshot (u : String) (t : Cpp.CppState) :
    (Cpp.cache_find u t).1 =
      (if u = "" then []
       else (((t.mapf u).map fun e => e.data).getD [])) := by
  by_cases hu : u = ""
  · simp [Cpp.cache_find, hu]
  · cases hm : t.mapf u with
    | none => simp [Cpp.cache_find, hu, hm]
    | some e =>
        by_cases hh : t.list.head? = some e
        · simp [Cpp.cache_find, hu, hm, hh]
        · simp [Cpp.cache_find, hu, hm, hh]

set_option maxRecDepth 16384 in
/-- C8 counterexample: on a CONNECT request whose origin connection
attempt fails, the C handler (`proxy_handler.c:341`) does NOT close the
connection silently — it sends a full `502 Bad Gateway` HTTP response to
the client. -/
theorem C8_counterexample :
    cConnectSends false ≠ [] ∧
      cConnectSends false = [c_send_error_response 502 "Bad Gateway"] ∧
      (c_send_error_response 502 "Bad Gateway").take 24 =
        "HTTP/1.1 502 Bad Gateway" := by
  refine ⟨?_, rfl, rfl⟩
  intro hcontra
  cases hcontra

set_option maxRecDepth 16384 in
/-- C8 (amended): on origin-connect failure the C++ handler closes the
CONNECT client without sending any response bytes, while on the same
failure the C handler sends a `502 Bad Gateway` response; the HTTP
(non-CONNECT) path responds `502 Bad Gateway` in both implementations. -/
theorem C8_connect_failure_responses :
    cppConnectSends false = [] ∧
      cConnectSends false = [c_send_error_response 502 "Bad Gateway"] ∧
      cHttpConnectFailSends = [c_send_error_response 502 "Bad Gateway"] ∧
      cppHttpConnectFailSends = [cpp_sendHttpError 502 "Bad Gateway"] ∧
      (cpp_sendHttpError 502 "Bad Gateway").take 24 =
        "HTTP/1.1 502 Bad Gateway" :=
  ⟨rfl, rfl, rfl, rfl, by decide⟩

/-- C10: on a cache-miss GET whose streaming loop sends every chunk
successfully, the bytes forwarded to the client are exactly the
concatenation of the origin `recv` chunks from byte 0 (status line and
headers included — nothing is skipped); whenever the response is stored,
the stored buffer is that same byte sequence; and replaying it through
`put`/`get` hands a later client an element carrying exactly those
bytes. -/
theorem C10_cache_stores_forwarded_stream (cap : Nat) (u : String)
    (s : CacheState) (chunks : List (List Nat)) (buf : List Nat)
    (h : CacheInv cap s)
    (hst : cacheStored (streamLoop cap true chunks) = some buf) :
    (streamLoop cap true chunks).1 = chunks.flatten ∧
      buf = chunks.flatten ∧
      buf = (streamLoop cap true chunks).1 ∧
      (cache_find u (cache_add cap u buf s)).1 = some ⟨u, buf⟩ := by
  have hsent : (streamLoop cap true chunks).1 = chunks.flatten := by
    have := streamLoop_sent_aux cap chunks ([], some [])
    simpa [streamLoop] using this
  have hbase : ∀ b : List Nat,
      (([], some []) : List Nat × Option (List Nat)).2 = some b →
        b = (([], some []) : List Nat × Option (List Nat)).1 ∧
          b.length ≤ cap := by
    intro b hb
    cases hb
    exact ⟨rfl, by simp⟩
  have hstored := streamLoop_stored_aux cap chunks ([], some []) hbase
  have hbuf : (streamLoop cap true chunks).2 = some buf ∧ buf ≠ [] := by
    revert hst
    unfold cacheStored
    cases h2 : (streamLoop cap true chunks).2 with
    | none => intro hst; cases hst
    | some b =>
        intro hst
        have hst2 : (if b = [] then none else some b) = some buf := hst
        by_cases hb : b = []
        · rw [if_pos hb] at hst2
          cases hst2
        · rw [if_neg hb] at hst2
          cases hst2
          exact ⟨rfl, hb⟩
  obtain ⟨hbeq, hble⟩ := hstored buf (by simpa [streamLoop] using hbuf.1)
  have hbflat : buf = chunks.flatten := by
    rw [hbeq]
    simpa [streamLoop] using hsent
  obtain ⟨_, hfind, _⟩ :=
    cache_add_ok h u buf (hbuf.2) hble
  refine ⟨hsent, hbflat, by rw [hbflat, hsent], ?_⟩
  simp [cache_find, hfind]

theorem C10_witness :
    (streamLoop 10 true [[1, 2], [3]]).1 = [[1, 2], [3]].flatten ∧
      [1, 2, 3] = [[1, 2], [3]].flatten ∧
      [1, 2, 3] = (streamLoop 10 true [[1, 2], [3]]).1 ∧
      (cache_find "a" (cache_add 10 "a" [1, 2, 3] emptyState)).1 =
        some ⟨"a", [1, 2, 3]⟩ :=
  C10_cache_stores_forwarded_stream 10 "a" emptyState [[1, 2], [3]]
    [1, 2, 3] (cacheInv_empty 10) (by decide)

/-- A bounded `snprintf` write whose piece fits (would-be length strictly
below the remaining space, leaving room for the NUL) stores the piece in
full. -/
theorem snprintfStep_fits (out : List Char) (r : Int) (p : List Char)
    (h : (p.length : Int) < r) :
    snprintfStep (out, r) p = (out ++ p, r - p.length) := by
  have hr : 0 < r := by omega
  have htake : p.take (r - 1).toNat = p :=
    List.take_of_length_le (by omega)
  unfold snprintfStep
  rw [if_pos hr, htake]

/-- Unfolding lemma for the bounded header-copy loop. -/
theorem copyHeaderLinesB_cons (acc : List Char × Int) (line : List Char)
    (rest : List (List Char)) :
    copyHeaderLinesB acc (line :: rest) =
      if 0 < acc.2 then
        if line = [] then acc
        else if ciHasPreL "Host:".toList line ||
            ciHasPreL "Connection:".toList line then
          copyHeaderLinesB acc rest
        else
          copyHeaderLinesB (snprintfStep acc (line ++ "\r\n".toList)) rest
      else acc := rfl

theorem specTailL_nil : specTailL [] = [] := rfl

/-- The spec-side header block stops at the blank line. -/
theorem specTailL_blank (rest : List (List Char)) :
    specTailL ([] :: rest) = [] := by
  simp [specTailL]

/-- The spec-side header block drops a `Host:`/`Connection:` line. -/
theorem specTailL_skip (line : List Char) (rest : List (List Char))
    (hl : line ≠ [])
    (hf : (ciHasPreL "Host:".toList line ||
      ciHasPreL "Connection:".toList line) = true) :
    specTailL (line :: rest) = specTailL rest := by
  unfold specTailL
  rw [List.takeWhile_cons]
  have hb1 : (decide (line ≠ [])) = true := by simp [hl]
  have hb2 : (!(ciHasPreL "Host:".toList line ||
      ciHasPreL "Connection:".toList line)) = false := by
    rw [hf]
    rfl
  simp only [hb1, if_true, List.filter_cons, hb2, Bool.false_eq_true,
    if_false]

/-- The spec-side header block keeps any other non-blank line. -/
theorem specTailL_keep (line : List Char) (rest : List (List Char))
    (hl : line ≠ [])
    (hf : (ciHasPreL "Host:".toList line ||
      ciHasPreL "Connection:".toList line) = false) :
    specTailL (line :: rest) =
      line ++ "\r\n".toList ++ specTailL rest := by
  unfold specTailL
  rw [List.takeWhile_cons]
  have hb1 : (decide (line ≠ [])) = true := by simp [hl]
  have hb2 : (!(ciHasPreL "Host:".toList line ||
      ciHasPreL "Connection:".toList line)) = true := by
    rw [hf]
    rfl
  simp only [hb1, if_true, List.filter_cons, hb2, List.map_cons,
    List.foldr_cons]

/-- Unfolding lemma for the C++ header-copy loop. -/
theorem cppCopyHeaderLines_cons (line : List Char)
    (rest : List (List Char)) :
    cppCopyHeaderLines (line :: rest) =
      if line = [] then "\r\n".toList
      else if ciHasPreL "Host:".toList line ||
          ciHasPreL "Connection:".toList line then
        cppCopyHeaderLines rest
      else line ++ "\r\n".toList ++ cppCopyHeaderLines rest := rfl

/-- When the client header lines contain the blank line (as every request
accepted by the header-acquisition loop does), the C++ header-copy loop
produces exactly the spec's filtered header block followed by the
terminating blank line. -/
theorem cppCopyHeaderLines_eq (lines : List (List Char))
    (hmem : [] ∈ lines) :
    cppCopyHeaderLines lines = specTailL lines ++ "\r\n".toList := by
  induction lines with
  | nil => cases hmem
  | cons line rest ih =>
      rw [cppCopyHeaderLines_cons]
      by_cases hl : line = []
      · rw [if_pos hl, hl, specTailL_blank]
        rfl
      · have hmem2 : [] ∈ rest := by
          rcases List.mem_cons.mp hmem with h | h
          · exact absurd h.symm hl
          · exact h
        rw [if_neg hl]
        by_cases hf : (ciHasPreL "Host:".toList line ||
            ciHasPreL "Connection:".toList line) = true
        · rw [if_pos hf, specTailL_skip line rest hl hf]
          exact ih hmem2
        · have hf2 : (ciHasPreL "Host:".toList line ||
              ciHasPreL "Connection:".toList line) = false := by
            cases hb : (ciHasPreL "Host:".toList line ||
                ciHasPreL "Connection:".toList line)
            · rfl
            · exact absurd hb hf
          rw [if_neg hf, specTailL_keep line rest hl hf2, ih hmem2]
          simp [List.append_assoc]

/-- When everything written so far is untruncated and the whole surviving
header block still fits (strictly, leaving the NUL byte), the bounded
header-copy loop writes exactly the spec's filtered header block and
accounts the remaining space exactly. -/
theorem copyHeaderLinesB_fits (bsz : Nat) (lines : List (List Char)) :
    ∀ out : List Char,
      out.length + (specTailL lines).length < bsz →
      copyHeaderLinesB (out, (bsz : Int) - out.length) lines =
        (out ++ specTailL lines,
          (bsz : Int) - out.length - (specTailL lines).length) := by
  induction lines with
  | nil =>
      intro out hfit
      simp [copyHeaderLinesB, specTailL_nil]
  | cons line rest ih =>
      intro out hfit
      have hr : 0 < (bsz : Int) - out.length := by omega
      rw [copyHeaderLinesB_cons]
      simp only []
      rw [if_pos hr]
      by_cases hl : line = []
      · rw [if_pos hl, hl, specTailL_blank]
        simp
      · rw [if_neg hl]
        by_cases hf : (ciHasPreL "Host:".toList line ||
            ciHasPreL "Connection:".toList line) = true
        · rw [if_pos hf]
          rw [specTailL_skip line rest hl hf] at hfit ⊢
          exact ih out hfit
        · have hf2 : (ciHasPreL "Host:".toList line ||
              ciHasPreL "Connection:".toList line) = false := by
            cases hb : (ciHasPreL "Host:".toList line ||
                ciHasPreL "Connection:".toList line)
            · rfl
            · exact absurd hb hf
          rw [if_neg hf]
          rw [specTailL_keep line rest hl hf2] at hfit ⊢
          have hemit : snprintfStep (out, (bsz : Int) - out.length)
              (line ++ "\r\n".toList) =
                (out ++ (line ++ "\r\n".toList),
                  (bsz : Int) - out.length -
                    (line ++ "\r\n".toList).length) := by
            refine snprintfStep_fits out _ _ ?_
            have hfit2 := hfit
            simp only [List.length_append] at hfit2
            simp only [List.length_append]
            omega
          rw [hemit]
          have harith : (bsz : Int) - ↑out.length -
              ↑(line ++ "\r\n".toList).length =
                (bsz : Int) - ↑(out ++ (line ++ "\r\n".toList)).length := by
            push_cast [List.length_append]
            ring
          rw [harith]
          have hfit3 : (out ++ (line ++ "\r\n".toList)).length +
              (specTailL rest).length < bsz := by
            simp only [List.length_append] at hfit ⊢
            omega
          rw [ih (out ++ (line ++ "\r\n".toList)) hfit3]
          simp only [Prod.mk.injEq]
          constructor
          · simp [List.append_assoc]
          · push_cast [List.length_append]
            ring

/-- The C origin-request builder produces exactly the spec layout
whenever the complete rebuilt request is strictly shorter than the buffer
(leaving the byte `snprintf` needs for the NUL): every bounded write then
completes untruncated and more than two bytes remain for the terminating
blank line. -/
theorem cBuildOriginRequest_fits (bsz : Nat) (method path host : List Char)
    (lines : List (List Char))
    (h : (specOriginRequestL method path host lines).length < bsz) :
    cBuildOriginRequest bsz method path host lines =
      specOriginRequestL method path host lines := by
  have hlen : (specOriginRequestL method path host lines).length =
      (method ++ " ".toList ++ path ++ " HTTP/1.1\r\n".toList).length +
        ("Host: ".toList ++ host ++ "\r\n".toList).length +
        ("Connection: close\r\n".toList).length +
        (specTailL lines).length + ("\r\n".toList).length := by
    simp only [specOriginRequestL, List.length_append]
    omega
  rw [hlen] at h
  have hcr : ("\r\n".toList).length = 2 := rfl
  simp only [cBuildOriginRequest]
  set p1 := method ++ " ".toList ++ path ++ " HTTP/1.1\r\n".toList with hp1
  set p2 := "Host: ".toList ++ host ++ "\r\n".toList with hp2
  set p3 := "Connection: close\r\n".toList with hp3
  set tl := specTailL lines with htl
  have e1 : snprintfStep ([], (bsz : Int)) p1 =
      (p1, (bsz : Int) - p1.length) := by
    have := snprintfStep_fits [] (bsz : Int) p1 (by omega)
    simpa using this
  have e2 : snprintfStep (p1, (bsz : Int) - p1.length) p2 =
      (p1 ++ p2, (bsz : Int) - p1.length - p2.length) :=
    snprintfStep_fits p1 _ p2 (by omega)
  have e3 : snprintfStep (p1 ++ p2, (bsz : Int) - p1.length - p2.length)
      p3 = (p1 ++ p2 ++ p3,
        (bsz : Int) - p1.length - p2.length - p3.length) :=
    snprintfStep_fits (p1 ++ p2) _ p3 (by omega)
  have harith : (bsz : Int) - p1.length - p2.length - p3.length =
      (bsz : Int) - (p1 ++ p2 ++ p3).length := by
    push_cast [List.length_append]
    ring
  have e4 : copyHeaderLinesB (p1 ++ p2 ++ p3,
      (bsz : Int) - (p1 ++ p2 ++ p3).length) lines =
        (p1 ++ p2 ++ p3 ++ tl,
          (bsz : Int) - (p1 ++ p2 ++ p3).length - tl.length) := by
    have := copyHeaderLinesB_fits bsz lines (p1 ++ p2 ++ p3)
      (by rw [← htl]; simp only [List.length_append]; omega)
    rw [← htl] at this
    simpa [List.append_assoc] using this
  rw [e1, e2, e3, harith, e4]
  simp only []
  have hrem : 2 < (bsz : Int) - (p1 ++ p2 ++ p3).length - tl.length := by
    simp only [List.length_append]
    omega
  rw [if_pos hrem]
  have e5 : snprintfStep (p1 ++ p2 ++ p3 ++ tl,
      (bsz : Int) - (p1 ++ p2 ++ p3).length - tl.length)
        ("\r\n".toList) =
        (p1 ++ p2 ++ p3 ++ tl ++ "\r\n".toList,
          (bsz : Int) - (p1 ++ p2 ++ p3).length - tl.length -
            ("\r\n".toList).length) := by
    have := snprintfStep_fits (p1 ++ p2 ++ p3 ++ tl)
      ((bsz : Int) - (p1 ++ p2 ++ p3).length - tl.length)
      ("\r\n".toList) (by rw [hcr]; push_cast; omega)
    simpa [List.append_assoc] using this
  rw [e5]
  simp only []
  rw [hp1, hp2, hp3, htl]
  simp [specOriginRequestL, List.append_assoc]

/-- C9 (amended): the rebuilt origin request has exactly the claimed
layout — request line `METHOD SP path SP HTTP/1.1 CRLF` from the parsed
path (never the absolute URL), `Host:` then `Connection: close` as the
first two headers, every surviving client header line copied verbatim in
original order minus the case-insensitive `Host:`/`Connection:` lines,
terminated by a blank line — in the C++ implementation whenever the
client's header lines contain the blank line (which the header-
acquisition loop guarantees), and in the C implementation whenever the
complete rebuilt request is shorter than the `MAX_BYTES` buffer; a longer
rebuilt request is truncated by the C builder (see the
counterexample). -/
theorem C9_origin_request_rebuild (bsz : Nat)
    (method path host : List Char) (lines : List (List Char)) :
    ([] ∈ lines →
        cppBuildOriginRequest path host lines =
          specOriginRequestL "GET".toList path host lines) ∧
      ((specOriginRequestL method path host lines).length < bsz →
        cBuildOriginRequest bsz method path host lines =
          specOriginRequestL method path host lines) := by
  constructor
  · intro hmem
    unfold cppBuildOriginRequest specOriginRequestL
    rw [cppCopyHeaderLines_eq lines hmem]
    rw [show ("GET ".toList : List Char) = "GET".toList ++ " ".toList
      from rfl]
    simp [List.append_assoc]
  · intro hfit
    exact cBuildOriginRequest_fits bsz method path host lines hfit

theorem C9_witness :
    cppBuildOriginRequest "/p".toList "h".toList
        ["X-A: 1".toList, [], "tail".toList] =
      specOriginRequestL "GET".toList "/p".toList "h".toList
        ["X-A: 1".toList, [], "tail".toList] ∧
      cBuildOriginRequest MAX_BYTES "GET".toList "/p".toList "h".toList
          ["X-A: 1".toList, [], "tail".toList] =
        specOriginRequestL "GET".toList "/p".toList "h".toList
          ["X-A: 1".toList, [], "tail".toList] :=
  ⟨(C9_origin_request_rebuild MAX_BYTES "GET".toList "/p".toList
      "h".toList ["X-A: 1".toList, [], "tail".toList]).1 (by decide),
    (C9_origin_request_rebuild MAX_BYTES "GET".toList "/p".toList
      "h".toList ["X-A: 1".toList, [], "tail".toList]).2 (by decide)⟩

/-- `ciHasPreL "Host:"` rejects a line of 4080 `x`s. -/
theorem ciHasPreL_host_xline :
    ciHasPreL "Host:".toList (List.replicate 4080 'x') = false := by
  unfold ciHasPreL
  have h5 : ("Host:".toList : List Char).length = 5 := rfl
  rw [List.take_replicate, List.length_replicate, h5]
  norm_num
  decide

/-- `ciHasPreL "Connection:"` rejects a line of 4080 `x`s. -/
theorem ciHasPreL_conn_xline :
    ciHasPreL "Connection:".toList (List.replicate 4080 'x') = false := by
  unfold ciHasPreL
  have h11 : ("Connection:".toList : List Char).length = 11 := rfl
  rw [List.take_replicate, List.length_replicate, h11]
  norm_num
  decide

theorem xline_ne_nil : (List.replicate 4080 'x' : List Char) ≠ [] := by
  apply List.ne_nil_of_length_pos
  rw [List.length_replicate]
  norm_num

/-- A truncated bounded `snprintf` write stores exactly `remaining - 1`
characters. -/
theorem snprintfStep_trunc_len (out : List Char) (r : Int) (p : List Char)
    (h0 : 0 < r) (h : r ≤ (p.length : Int)) :
    ((snprintfStep (out, r) p).1).length = out.length + (r - 1).toNat := by
  unfold snprintfStep
  simp only []
  rw [if_pos h0, List.length_append, List.length_take]
  omega

/-- C9 counterexample: the C builder writes into the fixed 4096-byte
`new_request` buffer, and rebuilt requests longer than that are reachable
(the client request may be up to 4095 bytes, and the rewrite adds the
`Host:` and `Connection: close` headers).  Concretely, with a single
4080-byte client header line the full rebuilt request is 4128 bytes, but
the C builder emits only 4095 bytes — the header line is cut mid-way and
the terminating blank line is dropped — so the request actually sent does
not consist of the parts the claim lists. -/
theorem C9_counterexample :
    (cBuildOriginRequest MAX_BYTES "GET".toList "/".toList "h".toList
        [List.replicate 4080 'x']).length = 4095 ∧
      (specOriginRequestL "GET".toList "/".toList "h".toList
        [List.replicate 4080 'x']).length = 4128 ∧
      cBuildOriginRequest MAX_BYTES "GET".toList "/".toList "h".toList
          [List.replicate 4080 'x'] ≠
        specOriginRequestL "GET".toList "/".toList "h".toList
          [List.replicate 4080 'x'] := by
  have e1 : snprintfStep ([], ((4096 : Nat) : Int))
      ("GET".toList ++ " ".toList ++ "/".toList ++
        " HTTP/1.1\r\n".toList) =
      ("GET / HTTP/1.1\r\n".toList, (4080 : Int)) := by decide
  have e2 : snprintfStep ("GET / HTTP/1.1\r\n".toList, (4080 : Int))
      ("Host: ".toList ++ "h".toList ++ "\r\n".toList) =
      ("GET / HTTP/1.1\r\nHost: h\r\n".toList, (4071 : Int)) := by
    decide
  have e3 : snprintfStep
      ("GET / HTTP/1.1\r\nHost: h\r\n".toList, (4071 : Int))
      ("Connection: close\r\n".toList) =
      ("GET / HTTP/1.1\r\nHost: h\r\nConnection: close\r\n".toList,
        (4052 : Int)) := by decide
  have hlen2 :
      ((List.replicate 4080 'x' ++ "\r\n".toList : List Char)).length =
        4082 := by
    rw [List.length_append, List.length_replicate]
    rfl
  have hloop : copyHeaderLinesB
      ("GET / HTTP/1.1\r\nHost: h\r\nConnection: close\r\n".toList,
        (4052 : Int)) [List.replicate 4080 'x'] =
      snprintfStep
        ("GET / HTTP/1.1\r\nHost: h\r\nConnection: close\r\n".toList,
          (4052 : Int)) (List.replicate 4080 'x' ++ "\r\n".toList) := by
    rw [copyHeaderLinesB]
    rw [if_pos (by norm_num), if_neg xline_ne_nil]
    rw [if_neg (by rw [ciHasPreL_host_xline, ciHasPreL_conn_xline]; simp)]
    rfl
  have htr : ((snprintfStep
      ("GET / HTTP/1.1\r\nHost: h\r\nConnection: close\r\n".toList,
        (4052 : Int))
      (List.replicate 4080 'x' ++ "\r\n".toList)).1).length = 4095 := by
    rw [snprintfStep_trunc_len _ _ _ (by norm_num)
      (by rw [hlen2]; norm_num)]
    rw [show
      (("GET / HTTP/1.1\r\nHost: h\r\nConnection: close\r\n".toList :
        List Char)).length = 44 from rfl]
    decide
  have hsnd : ((snprintfStep
      ("GET / HTTP/1.1\r\nHost: h\r\nConnection: close\r\n".toList,
        (4052 : Int))
      (List.replicate 4080 'x' ++ "\r\n".toList)).2) = (-30 : Int) := by
    show (4052 : Int) -
      ((List.replicate 4080 'x' ++ "\r\n".toList : List Char)).length =
        (-30 : Int)
    rw [hlen2]
    norm_num
  have h1 : (cBuildOriginRequest MAX_BYTES "GET".toList "/".toList
      "h".toList [List.replicate 4080 'x']).length = 4095 := by
    simp only [cBuildOriginRequest, MAX_BYTES]
    rw [e1, e2, e3, hloop]
    rw [if_neg (by rw [hsnd]; norm_num)]
    exact htr
  have hf : (ciHasPreL "Host:".toList (List.replicate 4080 'x') ||
      ciHasPreL "Connection:".toList (List.replicate 4080 'x')) =
        false := by
    rw [ciHasPreL_host_xline, ciHasPreL_conn_xline]
    rfl
  have htail : specTailL [List.replicate 4080 'x'] =
      List.replicate 4080 'x' ++ "\r\n".toList := by
    rw [specTailL_keep _ [] xline_ne_nil hf, specTailL_nil,
      List.append_nil]
  have h2 : (specOriginRequestL "GET".toList "/".toList "h".toList
      [List.replicate 4080 'x']).length = 4128 := by
    unfold specOriginRequestL
    rw [htail]
    simp only [List.length_append, List.length_replicate]
    decide
  refine ⟨h1, h2, ?_⟩
  intro heq
  rw [heq, h2] at h1
  omega
